import Mathlib

/-!
# Verification of the v7 AST store and date/time core

A shallow embedding, in Lean 4, of the byte-level AST serialization of `src/ast.c`
(schema table, writer, reader, `ast_skip_tree` traversal) and of the ECMAScript
date/time arithmetic module (calendar kernel, ISO formatter, string-to-instant
conversion, constructor argument handling), together with proofs and refutations
of the specification's claims about them.

Conventions:
* the byte buffer (`struct mbuf`) is a `List Nat` of byte values;
* buffer offsets (`ast_off_t`) are `Nat`;
* C `assert` failures and undefined behaviour on invalid input are modelled by
  `Option`-valued functions returning `none`;
* `etime_t` instants are modelled by `Int` (the integral points of the `double`
  millisecond timeline; C's `floor(x / y)` on exact integral doubles is `Int.fdiv`,
  C's integer `/` and `%` are `Int.tdiv` and `Int.tmod`);
* host-provided data (timezone offset, DST flag, `getdate`-based parsing
  fallback, locale) appears as explicit parameters.
-/

/-! ## AST store: schema table (`ast_node_defs` in src/ast.c) -/

structure AstNodeDef where
  hasVarint : Bool
  hasInlined : Bool
  numSkips : Nat
  numSubtrees : Nat
deriving DecidableEq

/-- Row constructor for `ast_node_defs` (`AST_ENTRY`). -/
def AE (hv hi : Bool) (ns nst : Nat) : AstNodeDef := ⟨hv, hi, ns, nst⟩

/-- The schema table `ast_node_defs` of src/ast.c, in source order, dropping the
(`V7_DISABLE_AST_TAG_NAMES`-conditional) name field. Fields are
`(has_varint, has_inlined, num_skips, num_subtrees)`. -/
def ast_node_defs : List AstNodeDef := [
  AE false false 0 0,  -- 0 NOP
  AE false false 2 0,  -- 1 SCRIPT
  AE false false 2 0,  -- 2 VAR
  AE true true 0 1,  -- 3 VAR_DECL
  AE true true 0 1,  -- 4 FUNC_DECL
  AE false false 2 1,  -- 5 IF
  AE false false 3 1,  -- 6 FUNC
  AE false false 0 2,  -- 7 ASSIGN
  AE false false 0 2,  -- 8 REM_ASSIGN
  AE false false 0 2,  -- 9 MUL_ASSIGN
  AE false false 0 2,  -- 10 DIV_ASSIGN
  AE false false 0 2,  -- 11 XOR_ASSIGN
  AE false false 0 2,  -- 12 PLUS_ASSIGN
  AE false false 0 2,  -- 13 MINUS_ASSIGN
  AE false false 0 2,  -- 14 OR_ASSIGN
  AE false false 0 2,  -- 15 AND_ASSIGN
  AE false false 0 2,  -- 16 LSHIFT_ASSIGN
  AE false false 0 2,  -- 17 RSHIFT_ASSIGN
  AE false false 0 2,  -- 18 URSHIFT_ASSIGN
  AE true true 0 0,  -- 19 NUM
  AE true true 0 0,  -- 20 IDENT
  AE true true 0 0,  -- 21 STRING
  AE true true 0 0,  -- 22 REGEX
  AE true true 0 0,  -- 23 LABEL
  AE false false 1 0,  -- 24 SEQ
  AE false false 1 1,  -- 25 WHILE
  AE false false 2 0,  -- 26 DOWHILE
  AE false false 2 3,  -- 27 FOR
  AE false false 2 3,  -- 28 FOR_IN
  AE false false 0 3,  -- 29 COND
  AE false false 0 0,  -- 30 DEBUGGER
  AE false false 0 0,  -- 31 BREAK
  AE false false 0 1,  -- 32 LAB_BREAK
  AE false false 0 0,  -- 33 CONTINUE
  AE false false 0 1,  -- 34 LAB_CONTINUE
  AE false false 0 0,  -- 35 RETURN
  AE false false 0 1,  -- 36 VAL_RETURN
  AE false false 0 1,  -- 37 THROW
  AE false false 3 1,  -- 38 TRY
  AE false false 2 1,  -- 39 SWITCH
  AE false false 1 1,  -- 40 CASE
  AE false false 1 0,  -- 41 DEFAULT
  AE false false 1 1,  -- 42 WITH
  AE false false 0 2,  -- 43 LOG_OR
  AE false false 0 2,  -- 44 LOG_AND
  AE false false 0 2,  -- 45 OR
  AE false false 0 2,  -- 46 XOR
  AE false false 0 2,  -- 47 AND
  AE false false 0 2,  -- 48 EQ
  AE false false 0 2,  -- 49 EQ_EQ
  AE false false 0 2,  -- 50 NE
  AE false false 0 2,  -- 51 NE_NE
  AE false false 0 2,  -- 52 LE
  AE false false 0 2,  -- 53 LT
  AE false false 0 2,  -- 54 GE
  AE false false 0 2,  -- 55 GT
  AE false false 0 2,  -- 56 IN
  AE false false 0 2,  -- 57 INSTANCEOF
  AE false false 0 2,  -- 58 LSHIFT
  AE false false 0 2,  -- 59 RSHIFT
  AE false false 0 2,  -- 60 URSHIFT
  AE false false 0 2,  -- 61 ADD
  AE false false 0 2,  -- 62 SUB
  AE false false 0 2,  -- 63 REM
  AE false false 0 2,  -- 64 MUL
  AE false false 0 2,  -- 65 DIV
  AE false false 0 1,  -- 66 POS
  AE false false 0 1,  -- 67 NEG
  AE false false 0 1,  -- 68 NOT
  AE false false 0 1,  -- 69 LOGICAL_NOT
  AE false false 0 1,  -- 70 VOID
  AE false false 0 1,  -- 71 DELETE
  AE false false 0 1,  -- 72 TYPEOF
  AE false false 0 1,  -- 73 PREINC
  AE false false 0 1,  -- 74 PREDEC
  AE false false 0 1,  -- 75 POSTINC
  AE false false 0 1,  -- 76 POSTDEC
  AE true true 0 1,  -- 77 MEMBER
  AE false false 0 2,  -- 78 INDEX
  AE false false 1 1,  -- 79 CALL
  AE false false 1 1,  -- 80 NEW
  AE false false 1 0,  -- 81 ARRAY
  AE false false 1 0,  -- 82 OBJECT
  AE true true 0 1,  -- 83 PROP
  AE false false 0 1,  -- 84 GETTER
  AE false false 0 1,  -- 85 SETTER
  AE false false 0 0,  -- 86 THIS
  AE false false 0 0,  -- 87 TRUE
  AE false false 0 0,  -- 88 FALSE
  AE false false 0 0,  -- 89 NULL
  AE false false 0 0,  -- 90 UNDEF
  AE false false 0 0]  -- 91 USE_STRICT

/-- `AST_END_SKIP`: the first skip slot always encodes the end of the node. -/
def AST_END_SKIP : Nat := 0

/-- Schema lookup with the blind-array-indexing default used by the readers
(the C code indexes `ast_node_defs[tag]` without a check; readers trust the
buffer, spec §7). -/
def defsAt (tag : Nat) : AstNodeDef := ast_node_defs.getD tag (AE false false 0 0)

/-! ## AST store: byte-level primitives -/

/-- Network-byte-order (big-endian) 16-bit encoding of `v < 65536`. -/
def be16 (v : Nat) : List Nat := [v / 256 % 256, v % 256]

/-- Read a big-endian 16-bit value: `p[1] | p[0] << 8` (from `ast_get_skip`). -/
def getBE16 (buf : List Nat) (p : Nat) : Nat := buf.getD p 0 * 256 + buf.getD (p + 1) 0

/-- Write a big-endian 16-bit value `v < 65536` at offset `p`:
`p[0] = v >> 8; p[1] = v & 0xff` (from `ast_modify_skip`). -/
def writeBE16 (buf : List Nat) (p : Nat) (v : Nat) : List Nat :=
  (buf.set p (v / 256 % 256)).set (p + 1) (v % 256)

/-- `decode_varint` (engine shared helper, not part of this repository).
Modelled from the spec: "Varint encoding is LEB128-style unsigned" (spec §6.2):
low seven bits per byte, high bit set on all but the last byte, least
significant group first. Returns `(value, number of bytes consumed)`. -/
def decode_varint : List Nat → Option (Nat × Nat)
  | [] => none
  | b :: rest =>
    if b < 128 then some (b, 1)
    else
      match decode_varint rest with
      | none => none
      | some (v, l) => some (v * 128 + b % 128, l + 1)

/-- LEB128 encoder matching `decode_varint` (fuel-based; `encodeVarint` below
supplies sufficient fuel). -/
def encode_varint_aux : Nat → Nat → List Nat
  | 0, _ => []
  | fuel + 1, n => if n < 128 then [n] else (n % 128 + 128) :: encode_varint_aux fuel (n / 128)

def encodeVarint (n : Nat) : List Nat := encode_varint_aux (n + 1) n

/-! ## AST store: writer (`ast_add_node`, `ast_insert_node`, `ast_set_skip`,
`ast_modify_skip`, `ast_add_inlined_node` in src/ast.c) -/

/-- `ast_add_node`: append the tag byte and `num_skips * 2` reserved skip bytes
(`mbuf_append(.., NULL, ..)`; per spec §4.2 the reserved bytes are zero),
returning `(new buffer, payload offset)` where the payload offset is
`start + 1`, one byte after the tag. The `assert(tag < AST_MAX_TAG)` is
modelled by `none`. -/
def ast_add_node (buf : List Nat) (tag : Nat) : Option (List Nat × Nat) :=
  match ast_node_defs.get? tag with
  | none => none
  | some d => some (buf ++ tag :: List.replicate (2 * d.numSkips) 0, buf.length + 1)

/-- `ast_modify_skip`: store `tgt - start` as a 16-bit big-endian delta into
skip slot `skip` of the node whose payload starts at `start`. The C code casts
the delta to `uint16_t` (i.e. reduces it modulo 2^16) and asserts only
`skip < def->num_skips`; there is no assertion on the delta. Reading the tag
byte at `start - 1` out of bounds (undefined behaviour in C) is modelled by
`none`. -/
def ast_modify_skip (buf : List Nat) (start tgt : Nat) (skip : Nat) : Option (List Nat) :=
  if start = 0 then none
  else
    match buf.get? (start - 1) with
    | none => none
    | some tag =>
      match ast_node_defs.get? tag with
      | none => none
      | some d =>
        if skip < d.numSkips then
          some (writeBE16 buf (start + 2 * skip) ((((tgt : Int) - (start : Int)) % 65536).toNat))
        else none

/-- `ast_set_skip`: patch skip slot `skip` with the current buffer length. -/
def ast_set_skip (buf : List Nat) (start : Nat) (skip : Nat) : Option (List Nat) :=
  ast_modify_skip buf start buf.length skip

/-- `ast_insert_node`: insert the tag byte and reserved skip bytes at offset
`at_` (`mbuf_insert`; inserting past the end fails, modelled by `none`), then,
if the node has skips, store the new buffer length into its `END` skip.
Returns `(new buffer, at_ + 1)`. -/
def ast_insert_node (buf : List Nat) (at_ : Nat) (tag : Nat) : Option (List Nat × Nat) :=
  match ast_node_defs.get? tag with
  | none => none
  | some d =>
    if at_ ≤ buf.length then
      let buf2 := buf.take at_ ++ tag :: (List.replicate (2 * d.numSkips) 0 ++ buf.drop at_)
      if d.numSkips ≠ 0 then
        match ast_set_skip buf2 (at_ + 1) AST_END_SKIP with
        | none => none
        | some buf3 => some (buf3, at_ + 1)
      else some (buf2, at_ + 1)
    else none

/-- `ast_add_inlined_node`: `assert(has_inlined)`, `ast_add_node`, then
`embed_string` at the returned payload offset. `embed_string` is an engine
shared helper not in this repository; modelled from the spec (§4.2):
"begin_node then embed a varint-prefixed raw byte payload". -/
def ast_add_inlined_node (buf : List Nat) (tag : Nat) (data : List Nat) : Option (List Nat) :=
  match ast_node_defs.get? tag with
  | none => none
  | some d =>
    if d.hasInlined then
      match ast_add_node buf tag with
      | none => none
      | some (buf1, off) =>
        some (buf1.take off ++ (encodeVarint data.length ++ (data ++ buf1.drop off)))
    else none

/-! ## AST store: reader (`ast_fetch_tag`, `ast_get_skip`, `ast_move_to_children`,
`ast_skip_tree` in src/ast.c) -/

/-- `ast_fetch_tag`: read the byte at the cursor and advance it. -/
def ast_fetch_tag (buf : List Nat) (pos : Nat) : Option (Nat × Nat) :=
  match buf.get? pos with
  | none => none
  | some t => some (t, pos + 1)

/-- `ast_get_skip`: decode the big-endian pair of skip slot `skip` and add it to
the payload offset `pos`. (The C code has a debug bounds assert and otherwise
trusts the buffer; out-of-range reads yield 0 here.) -/
def ast_get_skip (buf : List Nat) (pos : Nat) (skip : Nat) : Nat :=
  pos + getBE16 buf (pos + 2 * skip)

/-- `ast_move_to_children`: assuming the cursor sits one byte after a tag,
advance it past the varint length, the inlined payload, and the skip slots.
Note the source order: the varint is decoded at the cursor *before* the
skip-slot width is added (sound because no tag has both, see
`ast_schema_varint_excludes_skips`). -/
def ast_move_to_children (buf : List Nat) (pos : Nat) : Nat :=
  let d := defsAt (buf.getD (pos - 1) 0)
  let pos1 :=
    if d.hasVarint then
      match decode_varint (buf.drop pos) with
      | some (slen, llen) => pos + llen + (if d.hasInlined then slen else 0)
      | none => pos
    else pos
  pos1 + 2 * d.numSkips

/-- Bounded iteration: run `step` exactly `n` times, threading the cursor
(the `for (i = 0; i < def->num_subtrees; i++)` loop of `ast_skip_tree`). -/
def iterN (step : Nat → Option Nat) : Nat → Nat → Option Nat
  | 0, pos => some pos
  | n + 1, pos =>
    match step pos with
    | none => none
    | some p => iterN step n p

/-- Bounded while-loop: run `step` while the cursor is below `e`
(the `while (*pos < end)` loop of `ast_skip_tree`). The iteration bound `k`
is an artifact of the embedding; `cntNode` of a well-formed tree suffices. -/
def whileLt (step : Nat → Option Nat) (e : Nat) : Nat → Nat → Option Nat
  | 0, pos => if pos < e then none else some pos
  | k + 1, pos =>
    if pos < e then
      match step pos with
      | none => none
      | some p => whileLt step e k p
    else some pos

/-- `ast_skip_tree`: fetch the tag, move past the payload, recurse over the
fixed children, then (if the node has skips) read the `END` skip and recurse
until the cursor reaches it. The C recursion carries no fuel; the `fuel`
argument only bounds the recursion depth and loop counts, and is irrelevant
when large enough (`cntNode t` suffices for a well-formed tree `t`). -/
def ast_skip_tree (buf : List Nat) : Nat → Nat → Option Nat
  | 0, _ => none
  | fuel + 1, pos =>
    match ast_fetch_tag buf pos with
    | none => none
    | some (tag, pos1) =>
      match ast_node_defs.get? tag with
      | none => none
      | some d =>
        let pos2 := ast_move_to_children buf pos1
        match iterN (ast_skip_tree buf fuel) d.numSubtrees pos2 with
        | none => none
        | some pos3 =>
          if d.numSkips ≠ 0 then
            whileLt (ast_skip_tree buf fuel) (ast_get_skip buf pos1 AST_END_SKIP) fuel pos3
          else some pos3

/-! ## AST store: the trees the writer builds

`ATree` is the abstract shape of one serialized node: a tag, an optional
inlined payload, the deltas held by the skip slots other than `END`
(slots `1 .. num_skips - 1`, patched by the parser via `ast_set_skip` /
`ast_modify_skip` at sequence boundaries), the fixed-arity children and the
trailing children sequences (flattened; their grouping is exactly what the
extra skips record). -/

mutual
/-- One serialized AST node (see the section comment above). -/
inductive ATree where
  | node (tag : Nat) (inl : Option (List Nat)) (extras : List Nat)
         (fixed : ATreeList) (trailing : ATreeList)
inductive ATreeList where
  | nil
  | cons (t : ATree) (ts : ATreeList)
end

mutual
/-- Node count (used as traversal fuel). -/
def cntNode : ATree → Nat
  | .node _ _ _ fixed trailing => 1 + cntList fixed + cntList trailing
def cntList : ATreeList → Nat
  | .nil => 0
  | .cons t ts => cntNode t + cntList ts
end

def lenList : ATreeList → Nat
  | .nil => 0
  | .cons _ ts => lenList ts + 1

/-- The varint-length / inlined-string prefix of a node body (layout items 3–4
of spec §3.1). -/
def inlineBytes (d : AstNodeDef) (inl : Option (List Nat)) : List Nat :=
  match inl with
  | none => []
  | some data => encodeVarint data.length ++ (if d.hasInlined then data else [])

mutual
/-- On-wire serialization of a node (spec §3.1): tag byte; `num_skips`
big-endian 16-bit skips measured from the payload start (first the `END` skip,
i.e. the node length minus the tag byte, then the extra skips); varint length
and inlined payload; fixed children; trailing children. -/
def serializeNode : ATree → List Nat
  | .node tag inl extras fixed trailing =>
    let d := defsAt tag
    let body := inlineBytes d inl ++ (serializeList fixed ++ serializeList trailing)
    let skipB :=
      if d.numSkips = 0 then []
      else be16 (2 * d.numSkips + body.length) ++ (extras.map be16).flatten
    tag :: (skipB ++ body)
def serializeList : ATreeList → List Nat
  | .nil => []
  | .cons t ts => serializeNode t ++ serializeList ts
end

mutual
/-- Well-formedness of a tree with respect to the schema table: the tag is in
range; the inlined payload is present exactly when the schema has a varint and
consists of bytes; there is one recorded extra delta per skip slot beyond
`END`, each fitting 16 bits; the fixed-children count matches `num_subtrees`;
nodes without skips have no trailing children; and the `END` delta fits 16
bits (the documented 64k limit). -/
def wfNode : ATree → Bool
  | .node tag inl extras fixed trailing =>
    match ast_node_defs.get? tag with
    | none => false
    | some d =>
      (inl.isSome == d.hasVarint) &&
      (match inl with
       | none => true
       | some data => data.all (fun b => b < 256)) &&
      (if d.numSkips = 0 then extras.isEmpty else extras.length == d.numSkips - 1) &&
      extras.all (fun v => v < 65536) &&
      (lenList fixed == d.numSubtrees) &&
      (decide (d.numSkips ≠ 0) ||
        (match trailing with | .nil => true | .cons _ _ => false)) &&
      (d.numSkips == 0 ||
        decide (2 * d.numSkips +
          (inlineBytes d inl ++ (serializeList fixed ++ serializeList trailing)).length
            < 65536)) &&
      wfList fixed && wfList trailing
def wfList : ATreeList → Bool
  | .nil => true
  | .cons t ts => wfNode t && wfList ts
end

/-- Write the extra skip slots (`1 .. num_skips - 1`) of the node with payload
offset `payload` with the recorded deltas, using the writer's own
`ast_modify_skip` (this is how the parser records sequence boundaries such as
`end_true`, `catch`, `finally` when it closes a node). -/
def set_extra_skips (buf : List Nat) (payload : Nat) : List Nat → Nat → Option (List Nat)
  | [], _ => some buf
  | dlt :: ds, i =>
    match ast_modify_skip buf payload (payload + dlt) i with
    | none => none
    | some b => set_extra_skips b payload ds (i + 1)

mutual
/-- Build a tree through the writer interface, exactly in the append-dominant
discipline of spec §4.2: `ast_add_inlined_node` for inlined nodes, otherwise
`ast_add_node`, then the children in order, then on close `ast_set_skip` for
`END` followed by `ast_modify_skip` for the extra slots. -/
def build_node (buf : List Nat) : ATree → Option (List Nat)
  | .node tag inl extras fixed trailing =>
    match inl with
    | some data =>
      match ast_add_inlined_node buf tag data with
      | none => none
      | some buf1 =>
        match build_list buf1 fixed with
        | none => none
        | some buf2 => build_list buf2 trailing
    | none =>
      match ast_add_node buf tag with
      | none => none
      | some (buf1, payload) =>
        match build_list buf1 fixed with
        | none => none
        | some buf2 =>
          match build_list buf2 trailing with
          | none => none
          | some buf3 =>
            match ast_node_defs.get? tag with
            | none => none
            | some d =>
              if d.numSkips = 0 then some buf3
              else
                match ast_set_skip buf3 payload AST_END_SKIP with
                | none => none
                | some buf4 => set_extra_skips buf4 payload extras 1
def build_list (buf : List Nat) : ATreeList → Option (List Nat)
  | .nil => some buf
  | .cons t ts =>
    match build_node buf t with
    | none => none
    | some b => build_list b ts
end

/-- Example tree for the traversal witness: `IF (cond = IDENT "x")
{ iftrue = [RETURN]; iffalse = [] }` — the concrete scenario of spec §8
(`end_true` coincides with `end`, recorded in the extra-skip delta 8). -/
def ifExampleTree : ATree :=
  .node 5 none [8]
    (.cons (.node 20 (some [120]) [] .nil .nil) .nil)
    (.cons (.node 35 none [] .nil .nil) .nil)

/-- A buffer holding a `SCRIPT` tag byte followed by 65539 payload bytes, used
to exercise `ast_set_skip` with a delta that does not fit in 16 bits. -/
def bigScriptBuf : List Nat := 1 :: List.replicate 65539 0

/-! ## Date/time: calendar kernel (`ecma_*` helpers in the date module)

`etime_t` is a `double`; the claims below are about exact integral instants,
embedded as `Int`. C's `floor(x / y)` on such values is `Int.fdiv`; C's
integer division and remainder are `Int.tdiv` and `Int.tmod`. -/

def msPerDay : Int := 86400000
def msPerHour : Int := 3600000
def msPerMinute : Int := 60000
def msPerSecond : Int := 1000

/-- `ecma_Day`: `floor(t / msPerDay)`. -/
def ecma_Day (t : Int) : Int := Int.fdiv t msPerDay

/-- `ecma_DaysInYear`, with the source's exact cascade of `%` tests. -/
def ecma_DaysInYear (y : Int) : Int :=
  if Int.tmod y 4 ≠ 0 then 365
  else if Int.tmod y 4 = 0 ∧ Int.tmod y 100 ≠ 0 then 366
  else if Int.tmod y 100 = 0 ∧ Int.tmod y 400 ≠ 0 then 365
  else if Int.tmod y 400 = 0 then 366
  else 365

/-- `ecma_DayFromYear`: `365*(y-1970) + floor((y-1969)/4) - floor((y-1901)/100)
+ floor((y-1601)/400)` where the divisions are C **integer** divisions
(truncation toward zero) of `etimeint_t` values; the `floor()` around each
quotient is applied to an already-truncated integer and is the identity. -/
def ecma_DayFromYear (y : Int) : Int :=
  365 * (y - 1970) + Int.tdiv (y - 1969) 4 - Int.tdiv (y - 1901) 100 +
    Int.tdiv (y - 1601) 400

/-- The claim's (and ECMA 5.1's) `DayFromYear`, with mathematical floor
division, for comparison with `ecma_DayFromYear`. -/
def dayFromYearFloor (y : Int) : Int :=
  365 * (y - 1970) + Int.fdiv (y - 1969) 4 - Int.fdiv (y - 1901) 100 +
    Int.fdiv (y - 1601) 400

/-- `ecma_TimeFromYear`. -/
def ecma_TimeFromYear (y : Int) : Int := msPerDay * ecma_DayFromYear y

/-- The bisection loop of `ecma_YearFromTime_s` (`while (last > first)`),
with C's truncating division for `(last + first) / 2`. The loop body mirrors
the source: shrink to `[first, middle-1]` when `TimeFromYear(middle) > t`,
stop at `middle` when additionally `TimeFromYear(middle+1) > t`, else advance
to `[middle+1, last]`. The C loop has no fuel; `yft_fuel` below is an upper
bound on its iteration count, sufficient because the bracket width shrinks
every iteration. -/
def yft_loop (t : Int) : Nat → Int → Int → Int
  | 0, first, _ => first
  | fuel + 1, first, last =>
    if last > first then
      let middle := Int.tdiv (last + first) 2
      if ecma_TimeFromYear middle > t then
        yft_loop t fuel first (middle - 1)
      else
        if ecma_TimeFromYear middle ≤ t then
          if ecma_TimeFromYear (middle + 1) > t then middle
          else yft_loop t fuel (middle + 1) last
        else yft_loop t fuel first last
    else first

/-- `ecma_YearFromTime_s`: initial bracket
`first = floor((t / msPerDay) / 366) + 1970`,
`last = floor((t / msPerDay) / 365) + 1970` (real divisions, floored once:
`floor(floor(x)/n) = floor(x/n)` for positive integer `n`), swapped when
inverted, then the bisection loop. -/
def yftRun (t first last : Int) : Int :=
  if last < first then yft_loop t ((first - last).toNat + 1) last first
  else yft_loop t ((last - first).toNat + 1) first last

def ecma_YearFromTime_s (t : Int) : Int :=
  yftRun t (Int.fdiv t (msPerDay * 366) + 1970) (Int.fdiv t (msPerDay * 365) + 1970)

/-- `ecma_InLeapYear` (ignores `t`). -/
def ecma_InLeapYear (year : Int) : Bool := ecma_DaysInYear year == 366

/-- `ecma_DayWithinYear`. -/
def ecma_DayWithinYear (t : Int) (year : Int) : Int := ecma_Day t - ecma_DayFromYear year

/-- `ecma_getfirstdays`: the cumulative-days table `sdays`, with 1 added to
entries 2..12 in a leap year. -/
def ecma_getfirstdays (isleap : Bool) : List Int :=
  if isleap then [0, 31, 60, 91, 121, 152, 182, 213, 244, 274, 305, 335, 366]
  else [0, 31, 59, 90, 120, 151, 181, 212, 243, 273, 304, 334, 365]

/-- The `for` loop of `ecma_MonthFromTime`: first `i` in `0..11` with
`days[i] <= dwy < days[i+1]`, else `-1`. -/
def monthSearch (days : List Int) (dwy : Int) : Nat → Nat → Int
  | 0, _ => -1
  | fuel + 1, i =>
    if days.getD i 0 ≤ dwy ∧ dwy < days.getD (i + 1) 0 then (i : Int)
    else monthSearch days dwy fuel (i + 1)

/-- `ecma_MonthFromTime`. -/
def ecma_MonthFromTime (t : Int) (year : Int) : Int :=
  monthSearch (ecma_getfirstdays (ecma_InLeapYear year)) (ecma_DayWithinYear t year) 12 0

/-- `ecma_DateFromTime`. (For `mft = -1` the C code would index `days[-1]`,
which is undefined; the `Int.toNat` here maps that unreachable case to
`days[0]`.) -/
def ecma_DateFromTime (t : Int) (year : Int) : Int :=
  let mft := ecma_MonthFromTime t year
  if mft > 11 then -1
  else
    ecma_DayWithinYear t year -
      (ecma_getfirstdays (ecma_InLeapYear year)).getD mft.toNat 0 + 1

/-- `ecma_WeekDay`: `(Day(t) + 4) % 7` with C's `%`. -/
def ecma_WeekDay (t : Int) : Int := Int.tmod (ecma_Day t + 4) 7

/-- `ecma_HourFromTime`: `(etimeint_t)floor(t / msPerHour) % HoursPerDay`. -/
def ecma_HourFromTime (t : Int) : Int := Int.tmod (Int.fdiv t msPerHour) 24

/-- `ecma_MinFromTime`. -/
def ecma_MinFromTime (t : Int) : Int := Int.tmod (Int.fdiv t msPerMinute) 60

/-- `ecma_SecFromTime`. -/
def ecma_SecFromTime (t : Int) : Int := Int.tmod (Int.fdiv t msPerSecond) 60

/-- `ecma_msFromTime`: `(etimeint_t)t % msPerSecond` (the cast truncates; on
the integral instants modelled here it is the identity). -/
def ecma_msFromTime (t : Int) : Int := Int.tmod t 1000

/-- `ecma_MakeTime`. -/
def ecma_MakeTime (hour min sec ms : Int) : Int :=
  ((hour * 60 + min) * 60 + sec) * 1000 + ms

/-- `ecma_MakeDay`: `year += floor(month / 12)` (C integer division, the
`floor` is the identity on it); `month %= 12`; then
`floor(TimeFromYear(year) / msPerDay) + firstDays[month] + date - 1`.
(A negative normalized month would index `days[-1]` in C — undefined; the
`Int.toNat` maps that case to `days[0]`.) -/
def ecma_MakeDay (year month date : Int) : Int :=
  let year2 := year + Int.tdiv month 12
  let month2 := Int.tmod month 12
  let yday := Int.fdiv (ecma_TimeFromYear year2) msPerDay
  let days := ecma_getfirstdays (ecma_DaysInYear year2 == 366)
  yday + days.getD month2.toNat 0 + date - 1

/-- `ecma_MakeDate`. -/
def ecma_MakeDate (day time : Int) : Int := day * msPerDay + time

/-- `ecma_DaylightSavingTA`: host DST query (`localtime_r`, `tm_isdst`),
parametrized by the host's DST predicate `dst`. -/
def ecma_DaylightSavingTA (dst : Int → Bool) (t : Int) : Int :=
  if dst t then msPerHour else 0

/-- `ecma_LocalTime`, with the host's standard offset `tza` (=`ecma_LocalTZA`,
milliseconds east of UTC) and DST predicate. -/
def ecma_LocalTime (tza : Int) (dst : Int → Bool) (t : Int) : Int :=
  t + tza + ecma_DaylightSavingTA dst t

/-- `ecma_UTC`: DST is probed at the pre-adjusted instant `t - tza`. -/
def ecma_UTC (tza : Int) (dst : Int → Bool) (t : Int) : Int :=
  t - tza - ecma_DaylightSavingTA dst (t - tza)

/-! ## Date/time: broken-down time (`struct timeparts`) and conversions -/

structure TimeParts where
  year : Int
  month : Int
  day : Int
  hour : Int
  min : Int
  sec : Int
  msec : Int
  dayofweek : Int
deriving DecidableEq

/-- `d_gmtime`. -/
def d_gmtime (t : Int) : TimeParts :=
  let y := ecma_YearFromTime_s t
  { year := y
    month := ecma_MonthFromTime t y
    day := ecma_DateFromTime t y
    hour := ecma_HourFromTime t
    min := ecma_MinFromTime t
    sec := ecma_SecFromTime t
    msec := ecma_msFromTime t
    dayofweek := ecma_WeekDay t }

/-- `d_mktime_impl`. -/
def d_mktime_impl (tp : TimeParts) : Int :=
  ecma_MakeDate (ecma_MakeDay tp.year tp.month tp.day)
    (ecma_MakeTime tp.hour tp.min tp.sec tp.msec)

/-- `d_gmktime`. -/
def d_gmktime (tp : TimeParts) : Int := d_mktime_impl tp

/-- `d_lmktime`. -/
def d_lmktime (tza : Int) (dst : Int → Bool) (tp : TimeParts) : Int :=
  ecma_UTC tza dst (d_mktime_impl tp)

/-! ## Date/time: decimal printing (C `snprintf` `%0*d` directives) -/

def digitChar : Nat → Char
  | 0 => '0' | 1 => '1' | 2 => '2' | 3 => '3' | 4 => '4'
  | 5 => '5' | 6 => '6' | 7 => '7' | 8 => '8' | 9 => '9'
  | _ => '*'

/-- Decimal digits of `n`, most significant first (fuel-based; `natDigits`
supplies sufficient fuel). -/
def natDigitsAux : Nat → Nat → List Char
  | 0, _ => []
  | fuel + 1, n =>
    if n < 10 then [digitChar n]
    else natDigitsAux fuel (n / 10) ++ [digitChar (n % 10)]

def natDigits (n : Nat) : List Char := natDigitsAux (n + 1) n

/-- Pad a digit string with leading zeros to width `w` (no truncation, like
`printf`). -/
def zeroPad (w : Nat) (ds : List Char) : List Char :=
  List.replicate (w - ds.length) '0' ++ ds

/-- C `snprintf` `%0wd`: for a negative argument, the minus sign counts
toward the field width and the zero padding follows it. -/
def fmtPad (w : Nat) (n : Int) : List Char :=
  if n < 0 then '-' :: zeroPad (w - 1) (natDigits (-n).toNat)
  else zeroPad w (natDigits n.toNat)

/-! ## Date/time: ISO formatter (`d_timetoISOstr`) -/

/-- `d_timetoISOstr`: break the instant down with `d_gmtime`; when
`abs(year) > 9999 || year < 0` put a single `+`/`-` in the first byte
(`+` iff `year > 0`) and format the year with `%06d`, otherwise `%04d`;
then `-MM-DDTHH:MM:SS.sssZ` with `%02d`/`%03d` fields. -/
def d_timetoISOstr (t : Int) : List Char :=
  let tp := d_gmtime t
  let use_ext : Bool := decide (9999 < |tp.year|) || decide (tp.year < 0)
  (if use_ext then [if 0 < tp.year then '+' else '-'] else []) ++
    (fmtPad (if use_ext then 6 else 4) tp.year ++
      ('-' :: (fmtPad 2 (tp.month + 1) ++
        ('-' :: (fmtPad 2 tp.day ++
          ('T' :: (fmtPad 2 tp.hour ++
            (':' :: (fmtPad 2 tp.min ++
              (':' :: (fmtPad 2 tp.sec ++
                ('.' :: (fmtPad 3 tp.msec ++ ['Z'])))))))))))))

/-! ## Date/time: string parsing (`d_parsedatestr`, `d_timeFromString`)

The first strategy of `d_parsedatestr` is
`sscanf(str, " %d-%02d-%02dT%02d:%02d:%02d.%03dZ", ...)` with a `res == 7`
success test; it is modelled exactly by `scanISO` below.  Everything the
function tries *after* that strategy fails — `getdate()` (host-dependent,
keyed on the `DATEMSK` environment), the RFC-style `sscanf`, and the
separator-permutation fallback — runs behind that host call and is abstracted
as the `fallback` parameter; the theorems below hold for **every** fallback. -/

def isDigitCh (c : Char) : Bool := decide (48 ≤ c.toNat) && decide (c.toNat ≤ 57)

def isSpaceCh (c : Char) : Bool := c == ' ' || c == '\t' || c == '\n' || c == '\r'

def skipSpaces : List Char → List Char
  | [] => []
  | c :: rest => if isSpaceCh c then skipSpaces rest else c :: rest

/-- Read at most `w` decimal digits, returning how many were read, the
accumulated value, and the remaining input. -/
def readDigitsW : Nat → Nat → List Char → Nat × Nat × List Char
  | 0, acc, s => (0, acc, s)
  | _ + 1, acc, [] => (0, acc, [])
  | w + 1, acc, c :: rest =>
    if isDigitCh c then
      match readDigitsW w (acc * 10 + (c.toNat - 48)) rest with
      | (k, v, r) => (k + 1, v, r)
    else (0, acc, c :: rest)

/-- One `%d` / `%wd` conversion of `sscanf`: skip whitespace, an optional
sign (which counts toward the field width), then at least one digit. -/
def scanInt (w : Option Nat) (s : List Char) : Option (Int × List Char) :=
  let s1 := skipSpaces s
  let sign : Int × List Char × Option Nat :=
    match s1 with
    | [] => (1, [], w)
    | c :: r =>
      if c = '-' then (-1, r, w.map (fun n => n - 1))
      else if c = '+' then (1, r, w.map (fun n => n - 1))
      else (1, c :: r, w)
  match sign with
  | (sgn, s2, w2) =>
    match readDigitsW (match w2 with | none => s2.length | some n => n) 0 s2 with
    | (0, _, _) => none
    | (_ + 1, v, rest) => some (sgn * (v : Int), rest)

/-- Match one literal character of the format string. -/
def lit (c : Char) : List Char → Option (List Char)
  | [] => none
  | x :: rest => if x = c then some rest else none

/-- Strategy #1 of `d_parsedatestr`:
`sscanf(str, " %d-%02d-%02dT%02d:%02d:%02d.%03dZ", &year, &month, &day,
&hour, &min, &sec, &msec) == 7`. (The trailing literal `Z` cannot affect the
conversion count and is dropped.) -/
def scanISO (s : List Char) : Option (Int × Int × Int × Int × Int × Int × Int) :=
  match scanInt none s with
  | none => none
  | some (y, s) =>
    match lit '-' s with
    | none => none
    | some s =>
      match scanInt (some 2) s with
      | none => none
      | some (mo, s) =>
        match lit '-' s with
        | none => none
        | some s =>
          match scanInt (some 2) s with
          | none => none
          | some (d, s) =>
            match lit 'T' s with
            | none => none
            | some s =>
              match scanInt (some 2) s with
              | none => none
              | some (h, s) =>
                match lit ':' s with
                | none => none
                | some s =>
                  match scanInt (some 2) s with
                  | none => none
                  | some (mi, s) =>
                    match lit ':' s with
                    | none => none
                    | some s =>
                      match scanInt (some 2) s with
                      | none => none
                      | some (se, s) =>
                        match lit '.' s with
                        | none => none
                        | some s =>
                          match scanInt (some 3) s with
                          | none => none
                          | some (ms, _) => some (y, mo, d, h, mi, se, ms)

/-- `NO_TZ = 0x7FFFFFFF`. -/
def NO_TZ : Int := 2147483647

/-- `d_parsedatestr`: zero the output, try the strict ISO strategy (on success
the timezone is 0), otherwise hand the string to the host-dependent remainder
(strategies #2–#4), abstracted as `fallback`. -/
def d_parsedatestr (fallback : List Char → Option (TimeParts × Int))
    (s : List Char) : Option (TimeParts × Int) :=
  match scanISO s with
  | some (y, mo, d, h, mi, se, ms) =>
    some ({ year := y, month := mo, day := d, hour := h, min := mi, sec := se,
            msec := ms, dayofweek := 0 }, 0)
  | none => fallback s

/-- `d_timeFromString`: reject strings longer than 100 bytes outright; parse;
decrement the month; validate the field ranges; normalize a `tz > 12` as
`hhmm`; require `|tz| ≤ 12` or no timezone; build the instant with
`d_gmktime` and subtract the timezone (the host's zone, `-d_gettimezone()`
minutes, when none was parsed — `hostTZmin` is that host value). `none` models
`*time == NAN` / return 0. -/
def d_timeFromString (fallback : List Char → Option (TimeParts × Int))
    (hostTZmin : Int) (s : List Char) : Option Int :=
  if 100 < s.length then none
  else
    match d_parsedatestr fallback s with
    | none => none
    | some (tp0, tz0) =>
      let tp : TimeParts := { tp0 with month := tp0.month - 1 }
      let tz1 := if tz0 ≠ NO_TZ ∧ 12 < tz0 then Int.tdiv tz0 100 else tz0
      if (1 ≤ tp.day ∧ tp.day ≤ 31) ∧ (0 ≤ tp.month ∧ tp.month ≤ 11) ∧
          (0 ≤ tp.hour ∧ tp.hour ≤ 23) ∧ (0 ≤ tp.min ∧ tp.min ≤ 59) ∧
          (0 ≤ tp.sec ∧ tp.sec ≤ 59) ∧ (|tz1| ≤ 12 ∨ tz1 = NO_TZ) then
        some (d_gmktime tp -
          (if tz1 = NO_TZ then -hostTZmin * msPerMinute else tz1 * msPerHour))
      else none

/-- A host on which strategies #2–#4 of `d_parsedatestr` all fail. -/
def noFallback : List Char → Option (TimeParts × Int) := fun _ => none

/-! ## Date/time: setter/constructor plumbing (`d_changepartoftime`,
`Date_ctor` with two or more arguments) -/

def zeroTimeParts : TimeParts :=
  { year := 0, month := 0, day := 0, hour := 0, min := 0, sec := 0, msec := 0,
    dayofweek := 0 }

/-- `d_changepartoftime`: break the current instant down (or, when
`breaktimefunc == NULL`, start from the zeroed `struct timeparts`), overwrite
each of the seven slots whose entry in `a` is a valid (non-NaN) number — the
loop writes the fields `year, month, day, hour, min, sec, msec` in order
through `tp_arr`, so its net effect is the per-field update below — and
rebuild with `maketimefunc`. -/
def d_changepartoftime (current : Int) (a : Fin 7 → Option Int)
    (breaktimefunc : Option (Int → TimeParts))
    (maketimefunc : TimeParts → Int) : Int :=
  let tp0 := match breaktimefunc with
    | some f => f current
    | none => zeroTimeParts
  maketimefunc
    { year := (a 0).getD tp0.year
      month := (a 1).getD tp0.month
      day := (a 2).getD tp0.day
      hour := (a 3).getD tp0.hour
      min := (a 4).getD tp0.min
      sec := (a 5).getD tp0.sec
      msec := (a 6).getD tp0.msec
      dayofweek := tp0.dayofweek }

/-- The `cargs >= 2` branch of `Date_ctor`, after every argument has been
coerced to a valid number by `d_argtoint` (`args` are the already-truncated
integer values; the `memset` zero-fills the slots beyond `args.length`; the
embedding covers `args.length ≤ 7` — for more arguments the C loop writes
past the end of `a.args`):
`if (a.args[tpdate] == 0) a.args[tpdate] = 1;`
`if (a.args[tpyear] >= 0 && a.args[tpyear] <= 99) a.args[tpyear] += 1900;`
`ret_time = ecma_UTC(d_changepartoftime(0, &a, 0, d_gmktime));`. -/
def Date_ctor_multi (tza : Int) (dst : Int → Bool) (args : List Int) : Int :=
  let a0 : Fin 7 → Int := fun i => args.getD i.val 0
  let a1 : Fin 7 → Int := fun i => if i.val = 2 ∧ a0 i = 0 then 1 else a0 i
  let a2 : Fin 7 → Int :=
    fun i => if i.val = 0 ∧ (0 ≤ a1 i ∧ a1 i ≤ 99) then a1 i + 1900 else a1 i
  ecma_UTC tza dst (d_changepartoftime 0 (fun i => some (a2 i)) none d_gmktime)

/-- The claim's literal reading of the `>= 2` argument constructor:
`(year, month, [day=1], [hour], [min], [sec], [ms])` with 2-digit-year
lifting, a **missing** day defaulting to 1, and a supplied day used as
given. -/
def dateCtorClaim (tza : Int) (dst : Int → Bool) (args : List Int) : Int :=
  let y0 := args.getD 0 0
  let y := if 0 ≤ y0 ∧ y0 ≤ 99 then 1900 + y0 else y0
  ecma_UTC tza dst
    (ecma_MakeDate (ecma_MakeDay y (args.getD 1 0) (args.getD 2 1))
      (ecma_MakeTime (args.getD 3 0) (args.getD 4 0) (args.getD 5 0)
        (args.getD 6 0)))

/-- The amended reading: as `dateCtorClaim`, except that a day argument equal
to 0 is also replaced by 1 (the zero-initialized argument array cannot
distinguish an explicit 0 from an absent day). -/
def dateCtorAmended (tza : Int) (dst : Int → Bool) (args : List Int) : Int :=
  let y0 := args.getD 0 0
  let y := if 0 ≤ y0 ∧ y0 ≤ 99 then 1900 + y0 else y0
  let d0 := args.getD 2 1
  let d := if d0 = 0 then 1 else d0
  ecma_UTC tza dst
    (ecma_MakeDate (ecma_MakeDay y (args.getD 1 0) d)
      (ecma_MakeTime (args.getD 3 0) (args.getD 4 0) (args.getD 5 0)
        (args.getD 6 0)))

/-! ## Date/time: locale handling (`d_getcurrentlocale`, `d_setlocale`,
`d_tolocalestr`)

The process-wide `LC_TIME` locale is modelled as `LocaleState`; `setlocale`
with a null argument returns (a pointer to) the current locale string, with a
non-null argument installs that string.  `d_getcurrentlocale` as written runs
`strcpy(setlocale(LC_TIME, 0), loc->locale)` — the arguments of the intended
save are reversed: it copies the caller's (uninitialized) save buffer *over*
libc's current-locale string and leaves the save buffer untouched. -/

structure LocaleState where
  cur : List Char
deriving DecidableEq

/-- `d_getcurrentlocale` as written: the returned pair is (state after the
`strcpy` into libc's buffer, contents of the save buffer — unchanged). -/
def d_getcurrentlocale_code (st : LocaleState) (saveBuf : List Char) :
    LocaleState × List Char :=
  ({ cur := saveBuf }, saveBuf)

/-- `d_setlocale`: `setlocale(LC_TIME, loc ? loc->locale : "")`; the empty
string installs the host environment's default (`userDefault`). -/
def d_setlocale_model (st : LocaleState) (arg : Option (List Char))
    (userDefault : List Char) : LocaleState :=
  match st with
  | _ => { cur := arg.getD userDefault }

/-- The locale save/override/restore sequence performed by `d_tolocalestr`:
`d_getcurrentlocale(&prev_locale); d_setlocale(0); strftime(..);
d_setlocale(&prev_locale);` with `prev_locale` an uninitialized stack buffer
(`saveBuf`). Returns the `LC_TIME` state after the call. -/
def d_tolocalestr_locale (st0 : LocaleState) (saveBuf userDefault : List Char) :
    LocaleState :=
  let r := d_getcurrentlocale_code st0 saveBuf
  let st2 := d_setlocale_model r.1 none userDefault
  d_setlocale_model st2 (some r.2) userDefault

/-- Modelled from the spec: the intended sequence (spec §5 and §9: "save with
`locale ← get_current()` and restore with `set(locale)`"). -/
def localeSaveRestoreIntended (st0 : LocaleState) (userDefault : List Char) :
    LocaleState :=
  let prev := st0.cur
  let st1 := d_setlocale_model st0 none userDefault
  d_setlocale_model st1 (some prev) userDefault

/-- The skips-before-varint reading order declared by the on-wire layout
(spec §3.1 items 2–4): first step over the skip slots, then decode the varint
and inlined payload. Contrast with `ast_move_to_children`, which decodes the
varint at the cursor first. -/
def ast_move_to_children_layout (buf : List Nat) (pos : Nat) : Nat :=
  let d := defsAt (buf.getD (pos - 1) 0)
  let pos1 := pos + 2 * d.numSkips
  if d.hasVarint then
    match decode_varint (buf.drop pos1) with
    | some (slen, llen) => pos1 + llen + (if d.hasInlined then slen else 0)
    | none => pos1
  else pos1

/-- The `-MM-DDTHH:MM:SS.sssZ` tail of the ISO string, common to all three
year-field shapes. -/
def isoTail (tp : TimeParts) : List Char :=
  '-' :: (fmtPad 2 (tp.month + 1) ++
    ('-' :: (fmtPad 2 tp.day ++
      ('T' :: (fmtPad 2 tp.hour ++
        (':' :: (fmtPad 2 tp.min ++
          (':' :: (fmtPad 2 tp.sec ++
            ('.' :: (fmtPad 3 tp.msec ++ ['Z'])))))))))))

/-- Structural induction principle for `ATreeList` alone (the mutual recursor
of `ATree`/`ATreeList` carries two motives, which the `induction` tactic does
not handle). -/
def ATreeList.indOn {motive : ATreeList → Prop} :
    ∀ ts, motive .nil → (∀ t ts, motive ts → motive (.cons t ts)) → motive ts
  | .nil, h0, _ => h0
  | .cons t ts, h0, h1 => h1 t ts (ATreeList.indOn ts h0 h1)

/-!
# Theorems

Everything below is a proof about the definitions above. Claim theorems are
marked with their claim identifier.
-/

/-! ## Schema invariants (C9) and small AST helper lemmas -/

theorem getD_eq_of_get? {α : Type} {l : List α} {n : Nat} {x d : α}
    (h : l.get? n = some x) : l.getD n d = x := by
  simp [List.getD_eq_getElem?_getD, ← List.get?_eq_getElem?, h]

theorem getD_eq_of_get?_none {α : Type} {l : List α} {n : Nat} {d : α}
    (h : l.get? n = none) : l.getD n d = d := by
  simp [List.getD_eq_getElem?_getD, ← List.get?_eq_getElem?, h]

theorem defsAt_eq {tag : Nat} {d : AstNodeDef}
    (h : ast_node_defs.get? tag = some d) : defsAt tag = d :=
  getD_eq_of_get? h

theorem defsAt_eq_default {tag : Nat} (h : ast_node_defs.get? tag = none) :
    defsAt tag = AE false false 0 0 :=
  getD_eq_of_get?_none h

/-- Table-wide facts extracted from a decidable scan of `ast_node_defs`. -/
theorem schema_entry_facts {tag : Nat} {d : AstNodeDef}
    (h : ast_node_defs.get? tag = some d) :
    d.hasInlined = d.hasVarint ∧ (d.hasVarint = true → d.numSkips = 0) := by
  have hmem : d ∈ ast_node_defs := List.get?_mem h
  have hall : ∀ e ∈ ast_node_defs,
      e.hasInlined = e.hasVarint ∧ (e.hasVarint = true → e.numSkips = 0) := by decide
  exact hall d hmem

/-- **C9.** In the schema table, every node kind with a varint
(`has_varint`) has no skip slots (`num_skips = 0`), and every node kind with
an inlined string has a varint; no tag carries both skip slots and an inline
varint payload. Consequently `ast_move_to_children` — which decodes the
varint at the byte right after the tag *before* stepping over the skip
slots, in the opposite order from the declared on-wire layout — computes the
same cursor as the layout-order reader, for every buffer and position. -/
theorem ast_schema_varint_excludes_skips :
    (ast_node_defs.all
      (fun d => (!d.hasVarint || d.numSkips == 0) &&
                (!d.hasInlined || d.hasVarint)) = true) ∧
    ∀ buf pos, ast_move_to_children buf pos = ast_move_to_children_layout buf pos := by
  refine ⟨by decide, fun buf pos => ?_⟩
  unfold ast_move_to_children ast_move_to_children_layout
  rcases h : ast_node_defs.get? (buf.getD (pos - 1) 0) with _ | d
  · rw [defsAt_eq_default h]
    simp [AE]
  · rw [defsAt_eq h]
    rcases hv : d.hasVarint with _ | _
    · simp [hv]
    · have hns : d.numSkips = 0 := (schema_entry_facts h).2 hv
      simp [hv, hns]

theorem get?_append_at {α : Type} (pre : List α) (x : α) (rest : List α) :
    (pre ++ x :: rest).get? pre.length = some x := by
  induction pre with
  | nil => rfl
  | cons a l ih => simpa using ih

theorem getD_append_at (pre : List Nat) (x : Nat) (rest : List Nat) :
    (pre ++ x :: rest).getD pre.length 0 = x :=
  getD_eq_of_get? (get?_append_at pre x rest)

theorem set_append_at {α : Type} (pre : List α) (l : List α) (i : Nat) (v : α) :
    (pre ++ l).set (pre.length + i) v = pre ++ l.set i v := by
  induction pre with
  | nil => simp
  | cons a p ih => simpa [Nat.succ_add, List.set] using ih

theorem writeBE16_at (pre : List Nat) (a b : Nat) (rest : List Nat) (v : Nat) :
    writeBE16 (pre ++ a :: b :: rest) pre.length v =
      pre ++ (v / 256 % 256) :: ((v % 256) :: rest) := by
  unfold writeBE16
  have h0 := set_append_at pre (a :: b :: rest) 0 (v / 256 % 256)
  have h1 := set_append_at pre ((v / 256 % 256) :: b :: rest) 1 (v % 256)
  simp only [Nat.add_zero] at h0
  rw [h0]
  simpa using h1

theorem getBE16_at (pre : List Nat) (a b : Nat) (rest : List Nat) :
    getBE16 (pre ++ a :: b :: rest) pre.length = a * 256 + b := by
  unfold getBE16
  rw [getD_append_at]
  have : (pre ++ a :: b :: rest).getD (pre.length + 1) 0 = b := by
    have := getD_append_at (pre ++ [a]) b rest
    simpa [List.append_assoc] using this
  rw [this]

theorem be16_val (v : Nat) (h : v < 65536) : v / 256 % 256 * 256 + v % 256 = v := by
  omega

/-! ## C3: `ecma_DayFromYear` versus the floor formula -/

/-- **C3 (code bug).** The claim states `DayFromYear(y)` equals the ECMA
formula with mathematical floor division, *including for years before 1970*.
The source computes each quotient with C's truncating integer division (the
`floor()` wrapper is applied to an already-truncated integer), so at
`y = 1968` the code yields −730 while the floor formula (and the real
calendar: 1968 is a leap year, 731 days before 1970-01-01) yields −731.
For `y ≥ 1969` the two agree, as every dividend is nonnegative. -/
theorem ecma_DayFromYear_trunc_bug :
    ecma_DayFromYear 1968 = -730 ∧ dayFromYearFloor 1968 = -731 ∧
    ecma_DayFromYear 1968 ≠ dayFromYearFloor 1968 := by
  refine ⟨by decide, by decide, by decide⟩

/-! ## C8: locale save/override/restore -/

/-- **C8 (code bug).** The claim (and the spec's stated intent) is that
locale-sensitive formatting saves the process `LC_TIME` locale and restores
it, so the observable locale after the call equals the one before. As
written, `d_getcurrentlocale` runs `strcpy(setlocale(LC_TIME, 0),
loc->locale)` with the arguments of the intended save reversed: the
uninitialized save buffer is copied *over* libc's current-locale string and
the save buffer itself is never filled, so the final `d_setlocale(&prev)`
installs the garbage buffer. With initial locale `"C"`, save-buffer garbage
`"X"` and user default `"u"`, the locale after the call is `"X"`, not `"C"`;
the spec-intended sequence restores `"C"`. -/
theorem d_tolocalestr_locale_not_restored :
    d_tolocalestr_locale ⟨['C']⟩ ['X'] ['u'] = ⟨['X']⟩ ∧
    localeSaveRestoreIntended ⟨['C']⟩ ['u'] = ⟨['C']⟩ ∧
    d_tolocalestr_locale ⟨['C']⟩ ['X'] ['u'] ≠ ⟨['C']⟩ := by
  refine ⟨by decide, by decide, by decide⟩

/-! ## C10: oversized strings are rejected before parsing -/

/-- **C10.** `d_timeFromString` rejects every string longer than 100 bytes
without examining its content: the result is the invalid instant for any
string contents, any host timezone, and any host parsing fallback. -/
theorem d_timeFromString_rejects_long
    (fallback : List Char → Option (TimeParts × Int)) (hostTZmin : Int)
    (s : List Char) (h : 100 < s.length) :
    d_timeFromString fallback hostTZmin s = none := by
  unfold d_timeFromString
  simp [h]

theorem d_timeFromString_rejects_long_witness :
    100 < (List.replicate 101 'a').length ∧
    d_timeFromString noFallback 0 (List.replicate 101 'a') = none :=
  ⟨by simp, d_timeFromString_rejects_long noFallback 0 _ (by simp)⟩


/-! ## C2: what `ast_set_skip` actually asserts and stores -/

/-- **C2 (counterexample).** The claim states `ast_set_skip` fails an
assertion when the delta is ≥ 65536. It does not: on a `SCRIPT` node whose
payload starts at offset 1 of a 65540-byte buffer, the delta
`buffer length − payload start = 65539 ≥ 65536`, yet the call succeeds (the
delta is silently truncated to 16 bits; the only assertion is
`skip < num_skips`). -/
theorem ast_set_skip_no_delta_assert :
    (ast_set_skip bigScriptBuf 1 AST_END_SKIP).isSome = true ∧
    65536 ≤ bigScriptBuf.length - 1 := by
  have hlen : bigScriptBuf.length = 65540 := by
    unfold bigScriptBuf
    rw [List.length_cons, List.length_replicate]
  refine ⟨rfl, ?_⟩
  rw [hlen]
  decide

/-- **C2 (amended).** For a call `ast_set_skip(payload_start, which)` on a
node with a valid tag byte: the call returns without a failed assertion
*iff* `which < num_skips` for the node's tag — this is the only assertion —
and on success it stores `(current_buffer_length − payload_start) mod 2^16`
into slot `which` as a big-endian 16-bit value; a delta ≥ 2^16 is stored
truncated, not rejected. -/
theorem ast_set_skip_stores_delta_mod (buf : List Nat) (start skip tag : Nat)
    (d : AstNodeDef) (h0 : start ≠ 0) (h1 : buf.get? (start - 1) = some tag)
    (h2 : ast_node_defs.get? tag = some d) :
    ((ast_set_skip buf start skip).isSome ↔ skip < d.numSkips) ∧
    (skip < d.numSkips →
      ast_set_skip buf start skip =
        some (writeBE16 buf (start + 2 * skip)
          ((((buf.length : Int) - (start : Int)) % 65536).toNat))) := by
  unfold ast_set_skip ast_modify_skip
  simp only [if_neg h0, h1, h2]
  by_cases hs : skip < d.numSkips
  · simp [hs]
  · simp [hs]

theorem ast_set_skip_stores_delta_mod_witness :
    (ast_set_skip [24, 0, 0] 1 0).isSome = true ∧
    ast_set_skip [24, 0, 0] 1 0 = some [24, 0, 2] := by
  have h := ast_set_skip_stores_delta_mod [24, 0, 0] 1 0 24 (AE false false 1 0)
    (by decide) (by decide) (by decide)
  refine ⟨h.1.mpr (by decide), ?_⟩
  rw [h.2 (by decide)]
  decide

/-! ## C5: what `ast_insert_node` stores in the `END` skip -/

/-- **C5 (counterexample).** The claim states the node inserted by
`ast_insert_node` is well-formed *with an empty body* (`END` pointing just
past its own skip slots) even when inserted at an earlier offset of a
non-empty buffer. Inserting `SEQ` (one skip slot) at offset 0 of the 1-byte
buffer `[THIS]` stores delta 3 — the resulting `END` target is 4, the end of
the whole buffer — not delta 2 (`= 2 * num_skips`), which would be the
empty-body target 3. -/
theorem ast_insert_node_end_not_empty_body :
    ast_insert_node [86] 0 24 = some ([24, 0, 3, 86], 1) ∧
    ast_get_skip [24, 0, 3, 86] 1 AST_END_SKIP = 4 ∧
    (4 : Nat) ≠ 1 + 2 * 1 := by
  refine ⟨by decide, by decide, by decide⟩

theorem replicate_two_cons (n : Nat) (h : 0 < n) :
    List.replicate (2 * n) (0 : Nat) = 0 :: 0 :: List.replicate (2 * (n - 1)) 0 := by
  have h2 : 2 * n = (2 * (n - 1)).succ.succ := by omega
  rw [h2, List.replicate_succ, List.replicate_succ]

theorem writeBE16_in_zeros (A B : List Nat) (n v : Nat) (h : 0 < n) :
    writeBE16 (A ++ (List.replicate (2 * n) 0 ++ B)) A.length v =
      A ++ (be16 v ++ (List.replicate (2 * (n - 1)) 0 ++ B)) := by
  rw [replicate_two_cons n h]
  simp only [List.cons_append]
  unfold writeBE16
  have h0 := set_append_at A (0 :: 0 :: (List.replicate (2 * (n - 1)) 0 ++ B)) 0 (v / 256 % 256)
  simp only [Nat.add_zero] at h0
  rw [h0]
  simp only [List.set_cons_zero]
  have h1 := set_append_at A ((v / 256 % 256) :: 0 :: (List.replicate (2 * (n - 1)) 0 ++ B)) 1 (v % 256)
  rw [h1]
  simp only [List.set_cons_succ, List.set_cons_zero, be16, List.cons_append, List.nil_append]

/-- **C5 (amended).** `ast_insert_node(at, tag)` inserts the tag byte and the
reserved skip slots at `at` and returns `at + 1`; it stores the **new buffer
length** into the `END` skip of the inserted node (delta
`old_length − at + 2·num_skips`), with the slots beyond `END` zeroed. So the
`END` target is always the end of the whole buffer: the inserted node has an
empty body exactly when `at` was the old buffer length; at an earlier offset
its body is all the bytes that followed the insertion point. -/
theorem ast_insert_node_stores_buffer_end (buf : List Nat) (at_ tag : Nat)
    (d : AstNodeDef) (h1 : ast_node_defs.get? tag = some d)
    (h2 : at_ ≤ buf.length) (h3 : 0 < d.numSkips)
    (h4 : buf.length - at_ + 2 * d.numSkips < 65536) :
    ast_insert_node buf at_ tag =
      some (buf.take at_ ++ tag ::
        (be16 (buf.length - at_ + 2 * d.numSkips) ++
          (List.replicate (2 * (d.numSkips - 1)) 0 ++ buf.drop at_)), at_ + 1) ∧
    ∀ buf2, ast_insert_node buf at_ tag = some (buf2, at_ + 1) →
      ast_get_skip buf2 (at_ + 1) AST_END_SKIP = buf2.length := by
  have hlt : (buf.take at_).length = at_ := by
    simp [List.length_take, Nat.min_eq_left h2]
  have hA : (buf.take at_ ++ [tag]).length = at_ + 1 := by
    simp [hlt]
  have hmain : ast_insert_node buf at_ tag =
      some (buf.take at_ ++ tag ::
        (be16 (buf.length - at_ + 2 * d.numSkips) ++
          (List.replicate (2 * (d.numSkips - 1)) 0 ++ buf.drop at_)), at_ + 1) := by
    simp only [ast_insert_node, h1, if_pos h2, if_pos (by omega : d.numSkips ≠ 0),
      ast_set_skip, ast_modify_skip, AST_END_SKIP, if_neg (by omega : ¬ at_ + 1 = 0)]
    have hget : (buf.take at_ ++ tag ::
        (List.replicate (2 * d.numSkips) 0 ++ buf.drop at_)).get? (at_ + 1 - 1)
        = some tag := by
      have := get?_append_at (buf.take at_) tag (List.replicate (2 * d.numSkips) 0 ++ buf.drop at_)
      rw [hlt] at this
      simpa using this
    simp only [hget, h1, if_pos h3]
    have hlen : (buf.take at_ ++ tag ::
        (List.replicate (2 * d.numSkips) 0 ++ buf.drop at_)).length
        = buf.length + 1 + 2 * d.numSkips := by
      simp [hlt, List.length_replicate]
      omega
    have hdelta : ((((buf.take at_ ++ tag ::
        (List.replicate (2 * d.numSkips) 0 ++ buf.drop at_)).length : Int) -
        ((at_ + 1 : Nat) : Int)) % 65536).toNat
        = buf.length - at_ + 2 * d.numSkips := by
      rw [hlen]
      omega
    rw [hdelta]
    have hw := writeBE16_in_zeros (buf.take at_ ++ [tag]) (buf.drop at_) d.numSkips
      (buf.length - at_ + 2 * d.numSkips) h3
    rw [hA] at hw
    simp only [List.append_assoc, List.cons_append, List.nil_append] at hw
    have h20 : at_ + 1 + 2 * 0 = at_ + 1 := by omega
    rw [h20, hw]

  refine ⟨hmain, fun buf2 hb2 => ?_⟩
  rw [hmain] at hb2
  have hbeq : buf2 = buf.take at_ ++ tag ::
      (be16 (buf.length - at_ + 2 * d.numSkips) ++
        (List.replicate (2 * (d.numSkips - 1)) 0 ++ buf.drop at_)) := by
    have := (Prod.mk.injEq _ _ _ _).mp (Option.some.inj hb2)
    exact this.1.symm
  subst hbeq
  unfold ast_get_skip AST_END_SKIP
  have hge := getBE16_at (buf.take at_ ++ [tag])
    ((buf.length - at_ + 2 * d.numSkips) / 256 % 256)
    ((buf.length - at_ + 2 * d.numSkips) % 256)
    (List.replicate (2 * (d.numSkips - 1)) 0 ++ buf.drop at_)
  rw [hA] at hge
  have hshape : buf.take at_ ++ tag ::
      (be16 (buf.length - at_ + 2 * d.numSkips) ++
        (List.replicate (2 * (d.numSkips - 1)) 0 ++ buf.drop at_))
      = (buf.take at_ ++ [tag]) ++
        ((buf.length - at_ + 2 * d.numSkips) / 256 % 256 ::
          ((buf.length - at_ + 2 * d.numSkips) % 256 ::
            (List.replicate (2 * (d.numSkips - 1)) 0 ++ buf.drop at_))) := by
    simp [be16]
  rw [hshape]
  have hpos2 : at_ + 1 + 2 * 0 = at_ + 1 := by omega
  rw [hpos2, hge, be16_val _ h4]
  simp only [List.length_append, List.length_cons, List.length_replicate, hlt,
    List.length_nil, List.length_drop]
  omega

theorem ast_insert_node_stores_buffer_end_witness :
    ast_insert_node [86] 0 24 = some ([24, 0, 3, 86], 1) ∧
    ast_get_skip [24, 0, 3, 86] 1 AST_END_SKIP = 4 := by
  have h := ast_insert_node_stores_buffer_end [86] 0 24 (AE false false 1 0)
    (by decide) (by decide) (by decide) (by decide)
  have e1 : ast_insert_node [86] 0 24 = some ([24, 0, 3, 86], 1) := by
    rw [h.1]
    decide
  refine ⟨e1, ?_⟩
  have h2 := h.2 [24, 0, 3, 86] (by rw [e1])
  simpa using h2

/-! ## C1 groundwork: varint round-trip, well-formedness inversion, lengths -/

theorem get?_append_left {α : Type} {A : List α} (B : List α) {n : Nat}
    (h : n < A.length) : (A ++ B).get? n = A.get? n := by
  rw [List.get?_eq_getElem?, List.get?_eq_getElem?, List.getElem?_append_left h]

theorem encode_varint_aux_irrel (n : Nat) :
    ∀ f g, n < f → n < g → encode_varint_aux f n = encode_varint_aux g n := by
  induction n using Nat.strong_induction_on with
  | _ n ih =>
    intro f g hf hg
    match f, g, hf, hg with
    | f + 1, g + 1, hf, hg =>
      simp only [encode_varint_aux]
      by_cases h : n < 128
      · simp [h]
      · have hd : n / 128 < n := Nat.div_lt_self (by omega) (by norm_num)
        simp only [if_neg h]
        rw [ih (n / 128) hd f g (by omega) (by omega)]

theorem encodeVarint_unfold (n : Nat) :
    encodeVarint n =
      if n < 128 then [n] else (n % 128 + 128) :: encodeVarint (n / 128) := by
  unfold encodeVarint
  conv_lhs => rw [encode_varint_aux]
  by_cases h : n < 128
  · simp [h]
  · have hd : n / 128 < n := Nat.div_lt_self (by omega) (by norm_num)
    simp only [if_neg h]
    rw [encode_varint_aux_irrel (n / 128) n (n / 128 + 1) (by omega) (by omega)]

theorem decode_encode (n : Nat) (rest : List Nat) :
    decode_varint (encodeVarint n ++ rest) = some (n, (encodeVarint n).length) := by
  induction n using Nat.strong_induction_on with
  | _ n ih =>
    rw [encodeVarint_unfold]
    by_cases h : n < 128
    · simp [h, decode_varint]
    · have hd : n / 128 < n := Nat.div_lt_self (by omega) (by norm_num)
      simp only [if_neg h, List.cons_append, decode_varint,
        if_neg (by omega : ¬ n % 128 + 128 < 128)]
      rw [ih (n / 128) hd]
      simp only [List.length_cons, Option.some.injEq, Prod.mk.injEq]
      constructor
      · omega
      · trivial

/-- Inversion of `wfNode` on a node. -/
theorem wfNode_inv {tag : Nat} {inl : Option (List Nat)} {extras : List Nat}
    {fixed trailing : ATreeList}
    (h : wfNode (.node tag inl extras fixed trailing) = true) :
    ∃ d, ast_node_defs.get? tag = some d ∧
      inl.isSome = d.hasVarint ∧
      (if d.numSkips = 0 then extras = [] else extras.length = d.numSkips - 1) ∧
      (∀ v ∈ extras, v < 65536) ∧
      lenList fixed = d.numSubtrees ∧
      (d.numSkips = 0 → trailing = .nil) ∧
      (d.numSkips ≠ 0 →
        2 * d.numSkips +
          (inlineBytes d inl ++ (serializeList fixed ++ serializeList trailing)).length
            < 65536) ∧
      wfList fixed = true ∧ wfList trailing = true := by
  simp only [wfNode] at h
  rcases hd : ast_node_defs.get? tag with _ | d
  · rw [hd] at h
    exact absurd h (by simp)
  · rw [hd] at h
    simp only [Bool.and_eq_true, beq_iff_eq, decide_eq_true_eq, Bool.or_eq_true,
      beq_iff_eq] at h
    obtain ⟨⟨⟨⟨⟨⟨⟨⟨hiso, _hbytes⟩, hext⟩, hex16⟩, hlen⟩, htr⟩, hfit⟩, hwf⟩, hwt⟩ := h
    refine ⟨d, rfl, hiso, ?_, ?_, hlen, ?_, ?_, hwf, hwt⟩
    · by_cases hns : d.numSkips = 0
      · simp only [if_pos hns] at hext ⊢
        simpa [List.isEmpty_iff] using hext
      · simpa [hns] using hext
    · intro v hv
      have := List.all_eq_true.mp hex16 v hv
      simpa using this
    · intro hns
      rcases htr with htr | htr
      · exact absurd hns htr
      · match trailing, htr with
        | .nil, _ => rfl
    · intro hns
      rcases hfit with hfit | hfit
      · exact absurd hfit hns
      · exact hfit

theorem wfList_inv {t : ATree} {ts : ATreeList}
    (h : wfList (.cons t ts) = true) : wfNode t = true ∧ wfList ts = true := by
  simp only [wfList, Bool.and_eq_true] at h
  exact h

theorem cntNode_pos (t : ATree) : 1 ≤ cntNode t := by
  cases t with
  | node tag inl extras fixed trailing =>
    simp only [cntNode]
    omega

theorem lenList_le_cntList (ts : ATreeList) : lenList ts ≤ cntList ts := by
  refine ATreeList.indOn (motive := fun ts => lenList ts ≤ cntList ts) ts
    (by simp [lenList, cntList]) ?_
  intro t ts ih
  have := cntNode_pos t
  simp only [lenList, cntList]
  omega

theorem serializeNode_length_pos (t : ATree) : 0 < (serializeNode t).length := by
  cases t with
  | node tag inl extras fixed trailing => simp [serializeNode]

theorem flatten_map_be16_length (extras : List Nat) :
    ((extras.map be16).flatten).length = 2 * extras.length := by
  induction extras with
  | nil => simp
  | cons v vs ih =>
    simp [be16, ih]
    omega

/-! ## C1: the writer produces the serialized form -/

theorem ast_add_node_eq {tag : Nat} {d : AstNodeDef}
    (h : ast_node_defs.get? tag = some d) (buf : List Nat) :
    ast_add_node buf tag =
      some (buf ++ tag :: List.replicate (2 * d.numSkips) 0, buf.length + 1) := by
  simp only [ast_add_node, h]

theorem ast_add_inlined_node_eq {tag : Nat} {d : AstNodeDef}
    (h : ast_node_defs.get? tag = some d) (hi : d.hasInlined = true)
    (hns : d.numSkips = 0) (buf data : List Nat) :
    ast_add_inlined_node buf tag data =
      some (buf ++ tag :: (encodeVarint data.length ++ data)) := by
  simp only [ast_add_inlined_node, h, if_pos hi, ast_add_node_eq h, hns]
  have h1 : (buf ++ tag :: List.replicate (2 * 0) 0) = buf ++ [tag] := by simp
  rw [h1]
  have h2 : (buf ++ [tag]).take (buf.length + 1) = buf ++ [tag] := by
    apply List.take_of_length_le
    simp
  have h3 : (buf ++ [tag]).drop (buf.length + 1) = [] := by
    apply List.drop_eq_nil_of_le
    simp
  rw [h2, h3]
  simp

theorem set_extra_skips_eq {tag : Nat} {d : AstNodeDef}
    (hd : ast_node_defs.get? tag = some d) (payload : Nat) (hp : payload ≠ 0) :
    ∀ (ds : List Nat) (i : Nat) (A B : List Nat),
      A.length = payload + 2 * i →
      i + ds.length = d.numSkips →
      (∀ v ∈ ds, v < 65536) →
      A.get? (payload - 1) = some tag →
      set_extra_skips (A ++ (List.replicate (2 * ds.length) 0 ++ B)) payload ds i
        = some (A ++ ((ds.map be16).flatten ++ B)) := by
  intro ds
  induction ds with
  | nil =>
    intro i A B _ _ _ _
    simp [set_extra_skips]
  | cons dlt ds ih =>
    intro i A B hA hi hv htag
    have hplt : payload - 1 < A.length := by omega
    have hget : (A ++ (List.replicate (2 * (dlt :: ds).length) 0 ++ B)).get? (payload - 1)
        = some tag := by rw [get?_append_left _ hplt, htag]
    have hilt : i < d.numSkips := by
      simp only [List.length_cons] at hi
      omega
    simp only [set_extra_skips, ast_modify_skip, if_neg hp, hget, hd, if_pos hilt]
    have hval : ((((payload + dlt : Nat) : Int) - ((payload : Nat) : Int)) % 65536).toNat
        = dlt := by
      have := hv dlt (by simp)
      omega
    rw [hval]
    rw [show payload + 2 * i = A.length from hA.symm]
    simp only [List.length_cons]
    rw [show 2 * (ds.length + 1) = 2 * (ds.length + 1) from rfl]
    rw [writeBE16_in_zeros A B (ds.length + 1) dlt (by omega)]
    have hstep := ih (i + 1) (A ++ be16 dlt) B
      (by simp [be16, hA]; omega)
      (by simp only [List.length_cons] at hi; omega)
      (fun v hv' => hv v (by simp [hv']))
      (by rw [get?_append_left _ hplt, htag])
    have hsimp : ds.length + 1 - 1 = ds.length := by omega
    rw [hsimp]
    have hassoc : A ++ (be16 dlt ++ (List.replicate (2 * ds.length) 0 ++ B))
        = (A ++ be16 dlt) ++ (List.replicate (2 * ds.length) 0 ++ B) := by
      simp [List.append_assoc]
    rw [hassoc, hstep]
    simp [List.append_assoc]

theorem build_list_eq_of (n : Nat)
    (NC : ∀ t buf, cntNode t ≤ n → wfNode t = true →
      build_node buf t = some (buf ++ serializeNode t)) :
    ∀ ts buf, cntList ts ≤ n → wfList ts = true →
      build_list buf ts = some (buf ++ serializeList ts) := by
  intro ts
  refine ATreeList.indOn
    (motive := fun ts => ∀ buf, cntList ts ≤ n → wfList ts = true →
      build_list buf ts = some (buf ++ serializeList ts)) ts ?_ ?_
  · intro buf _ _
    simp [build_list, serializeList]
  · intro t ts ih buf hc hw
    obtain ⟨hwt, hwts⟩ := wfList_inv hw
    simp only [cntList] at hc
    have h1 := NC t buf (by have := cntNode_pos t; omega) hwt
    simp only [build_list, h1]
    rw [ih (buf ++ serializeNode t) (by omega) hwts]
    simp [serializeList, List.append_assoc]

theorem build_node_eq_serialize :
    ∀ n t buf, cntNode t ≤ n → wfNode t = true →
      build_node buf t = some (buf ++ serializeNode t) := by
  intro n
  induction n using Nat.strong_induction_on with
  | _ n ih =>
    intro t buf hc hw
    match t with
    | .node tag inl extras fixed trailing =>
      obtain ⟨d, hd, hiso, hext, hex16, hlen, htr, hfit, hwf, hwt⟩ := wfNode_inv hw
      have hdf : defsAt tag = d := defsAt_eq hd
      have hcf : cntList fixed ≤ n - 1 := by simp only [cntNode] at hc; omega
      have hct : cntList trailing ≤ n - 1 := by simp only [cntNode] at hc; omega
      have NC : ∀ t buf, cntNode t ≤ n - 1 → wfNode t = true →
          build_node buf t = some (buf ++ serializeNode t) := by
        intro t' buf' hc' hw'
        have hn1 : 1 ≤ n := le_trans (cntNode_pos _) hc
        exact ih (n - 1) (by omega) t' buf' hc' hw'
      have hBL := build_list_eq_of (n - 1) NC
      cases inl with
      | some data =>
        have hv : d.hasVarint = true := by
          rw [← hiso]
          rfl
        have hhi : d.hasInlined = true := (schema_entry_facts hd).1.trans hv
        have hns : d.numSkips = 0 := (schema_entry_facts hd).2 hv
        have htrn : trailing = .nil := htr hns
        subst htrn
        have hF : ∀ b : List Nat, build_list b fixed = some (b ++ serializeList fixed) :=
          fun b => hBL fixed b hcf hwf
        have hT : ∀ b : List Nat, build_list b .nil = some (b ++ serializeList .nil) :=
          fun b => hBL .nil b (by simp [cntList]) (by simp [wfList])
        simp only [build_node, ast_add_inlined_node_eq hd hhi hns, hF, hT]
        simp only [serializeNode, serializeList, hdf, hns, inlineBytes, if_pos hhi,
          if_pos rfl]
        simp [List.append_assoc]
      | none =>
        have hF : ∀ b : List Nat, build_list b fixed = some (b ++ serializeList fixed) :=
          fun b => hBL fixed b hcf hwf
        have hT : ∀ b : List Nat, build_list b trailing = some (b ++ serializeList trailing) :=
          fun b => hBL trailing b hct hwt
        simp only [build_node, ast_add_node_eq hd, hF, hT, hd]
        by_cases hns : d.numSkips = 0
        · rw [if_pos hns]
          have htrn : trailing = .nil := htr hns
          subst htrn
          simp only [serializeNode, serializeList, hdf, hns, inlineBytes, if_pos rfl]
          simp [List.append_assoc]
        · rw [if_neg hns]
          have hfit' := hfit hns
          simp only [inlineBytes, List.nil_append] at hfit'
          have hext' : extras.length = d.numSkips - 1 := by
            simpa [hns] using hext
          set FB := serializeList fixed with hFB
          set TB := serializeList trailing with hTB
          set E := 2 * d.numSkips + (FB.length + TB.length) with hEdef
          have hElt : E < 65536 := by
            simp only [hEdef]
            simpa using hfit'
          have hassoc3 : buf ++ tag :: List.replicate (2 * d.numSkips) 0 ++ FB ++ TB
              = (buf ++ [tag]) ++
                (List.replicate (2 * d.numSkips) 0 ++ (FB ++ TB)) := by
            simp [List.append_assoc]
          rw [hassoc3]
          have hgettag : ((buf ++ [tag]) ++
              (List.replicate (2 * d.numSkips) 0 ++ (FB ++ TB))).get?
              (buf.length + 1 - 1) = some tag := by
            rw [get?_append_left _ (by simp : buf.length + 1 - 1 < (buf ++ [tag]).length)]
            have := get?_append_at buf tag []
            simpa using this
          have hlen3 : ((buf ++ [tag]) ++
              (List.replicate (2 * d.numSkips) 0 ++ (FB ++ TB))).length
              = buf.length + 1 + 2 * d.numSkips + (FB.length + TB.length) := by
            simp [List.length_replicate]
            omega
          have hE : (((((buf ++ [tag]) ++
              (List.replicate (2 * d.numSkips) 0 ++ (FB ++ TB))).length : Nat) : Int) -
              ((buf.length + 1 : Nat) : Int)) % 65536 = ((E : Nat) : Int) := by
            rw [hlen3]
            simp only [hEdef]
            have := hElt
            simp only [hEdef] at this
            omega
          simp only [ast_set_skip, ast_modify_skip, AST_END_SKIP,
            if_neg (by omega : ¬ buf.length + 1 = 0), hgettag, hd,
            if_pos (by omega : 0 < d.numSkips)]
          rw [hE]
          simp only [Int.toNat_natCast]
          have hpos : buf.length + 1 + 2 * 0 = ((buf ++ [tag]) : List Nat).length := by
            simp
          rw [hpos]
          rw [writeBE16_in_zeros (buf ++ [tag]) (FB ++ TB) d.numSkips E (by omega)]
          rw [show ((buf ++ [tag] : List Nat)).length = buf.length + 1 from by simp]
          have hrep : 2 * (d.numSkips - 1) = 2 * extras.length := by omega
          have hassoc4 : (buf ++ [tag]) ++
              (be16 E ++ (List.replicate (2 * extras.length) 0 ++ (FB ++ TB)))
              = ((buf ++ [tag]) ++ be16 E) ++
                (List.replicate (2 * extras.length) 0 ++ (FB ++ TB)) := by
            simp [List.append_assoc]
          rw [hrep, hassoc4]
          have happ := set_extra_skips_eq hd (buf.length + 1) (by omega) extras 1
            ((buf ++ [tag]) ++ be16 E) (FB ++ TB)
            (by simp [be16])
            (by omega)
            hex16
            (by
              rw [get?_append_left _ (by simp : buf.length + 1 - 1 < (buf ++ [tag]).length)]
              have := get?_append_at buf tag []
              simpa using this)
          rw [happ]
          simp only [serializeNode, hdf, if_neg hns, inlineBytes, List.nil_append,
            ← hFB, ← hTB, ← hEdef]
          simp [List.append_assoc]

/-! ## C1: `ast_skip_tree` lands one byte past the serialized node -/

theorem iterN_skip (fuel : Nat)
    (NC : ∀ t pre suf, wfNode t = true → cntNode t ≤ fuel →
      ast_skip_tree (pre ++ (serializeNode t ++ suf)) fuel pre.length
        = some (pre.length + (serializeNode t).length)) :
    ∀ ts pre suf buf, buf = pre ++ (serializeList ts ++ suf) →
      wfList ts = true → cntList ts ≤ fuel →
      iterN (ast_skip_tree buf fuel) (lenList ts) pre.length
        = some (pre.length + (serializeList ts).length) := by
  intro ts
  refine ATreeList.indOn
    (motive := fun ts => ∀ pre suf buf, buf = pre ++ (serializeList ts ++ suf) →
      wfList ts = true → cntList ts ≤ fuel →
      iterN (ast_skip_tree buf fuel) (lenList ts) pre.length
        = some (pre.length + (serializeList ts).length)) ts ?_ ?_
  · intro pre suf buf _ _ _
    simp [iterN, lenList, serializeList]
  · intro t ts ih pre suf buf hbuf hw hc
    obtain ⟨hwt, hwts⟩ := wfList_inv hw
    simp only [cntList] at hc
    simp only [lenList, iterN]
    have h1 : ast_skip_tree buf fuel pre.length
        = some (pre.length + (serializeNode t).length) := by
      subst hbuf
      have hshape : pre ++ (serializeList (.cons t ts) ++ suf)
          = pre ++ (serializeNode t ++ (serializeList ts ++ suf)) := by
        simp [serializeList, List.append_assoc]
      rw [hshape]
      exact NC t pre (serializeList ts ++ suf) hwt (by have := cntNode_pos t; omega)
    simp only [h1]
    have h2 := ih (pre ++ serializeNode t) suf buf
      (by subst hbuf; simp [serializeList, List.append_assoc]) hwts (by omega)
    simp only [List.length_append] at h2
    rw [h2]
    simp [serializeList, Nat.add_assoc]

theorem whileLt_skip (fuel : Nat)
    (NC : ∀ t pre suf, wfNode t = true → cntNode t ≤ fuel →
      ast_skip_tree (pre ++ (serializeNode t ++ suf)) fuel pre.length
        = some (pre.length + (serializeNode t).length)) :
    ∀ ts k pre suf buf, buf = pre ++ (serializeList ts ++ suf) →
      wfList ts = true → cntList ts ≤ fuel → lenList ts ≤ k →
      whileLt (ast_skip_tree buf fuel) (pre.length + (serializeList ts).length)
        k pre.length
        = some (pre.length + (serializeList ts).length) := by
  intro ts
  refine ATreeList.indOn
    (motive := fun ts => ∀ k pre suf buf, buf = pre ++ (serializeList ts ++ suf) →
      wfList ts = true → cntList ts ≤ fuel → lenList ts ≤ k →
      whileLt (ast_skip_tree buf fuel) (pre.length + (serializeList ts).length)
        k pre.length
        = some (pre.length + (serializeList ts).length)) ts ?_ ?_
  · intro k pre suf buf _ _ _ _
    cases k with
    | zero => simp [whileLt, serializeList]
    | succ k => simp [whileLt, serializeList]
  · intro t ts ih k pre suf buf hbuf hw hc hk
    obtain ⟨hwt, hwts⟩ := wfList_inv hw
    simp only [cntList] at hc
    have hk1 : 1 ≤ k := by
      simp only [lenList] at hk
      omega
    obtain ⟨k', rfl⟩ : ∃ k'', k = k'' + 1 := ⟨k - 1, by omega⟩
    simp only [whileLt]
    have hlt : pre.length < pre.length + (serializeList (.cons t ts)).length := by
      have := serializeNode_length_pos t
      simp only [serializeList, List.length_append]
      omega
    rw [if_pos hlt]
    have h1 : ast_skip_tree buf fuel pre.length
        = some (pre.length + (serializeNode t).length) := by
      subst hbuf
      have hshape : pre ++ (serializeList (.cons t ts) ++ suf)
          = pre ++ (serializeNode t ++ (serializeList ts ++ suf)) := by
        simp [serializeList, List.append_assoc]
      rw [hshape]
      exact NC t pre (serializeList ts ++ suf) hwt (by have := cntNode_pos t; omega)
    simp only [h1]
    have h2 := ih k' (pre ++ serializeNode t) suf buf
      (by subst hbuf; simp [serializeList, List.append_assoc]) hwts (by omega)
      (by simp only [lenList] at hk; omega)
    simp only [List.length_append] at h2
    have he : pre.length + (serializeList (.cons t ts)).length
        = pre.length + (serializeNode t).length + (serializeList ts).length := by
      simp [serializeList, Nat.add_assoc]
    rw [he, h2]

theorem ast_skip_tree_serialize :
    ∀ fuel t pre suf, wfNode t = true → cntNode t ≤ fuel →
      ast_skip_tree (pre ++ (serializeNode t ++ suf)) fuel pre.length
        = some (pre.length + (serializeNode t).length) := by
  intro fuel
  induction fuel using Nat.strong_induction_on with
  | _ fuel ih =>
    intro t pre suf hw hc
    match t with
    | .node tag inl extras fixed trailing =>
      obtain ⟨d, hd, hiso, hext, hex16, hlen, htr, hfit, hwf, hwt⟩ := wfNode_inv hw
      have hdf : defsAt tag = d := defsAt_eq hd
      have h1f : 1 ≤ fuel := le_trans (cntNode_pos _) hc
      obtain ⟨f, rfl⟩ : ∃ f, fuel = f + 1 := ⟨fuel - 1, by omega⟩
      simp only [cntNode] at hc
      have NC : ∀ t' pre' suf', wfNode t' = true → cntNode t' ≤ f →
          ast_skip_tree (pre' ++ (serializeNode t' ++ suf')) f pre'.length
            = some (pre'.length + (serializeNode t').length) :=
        fun t' pre' suf' hw' hc' => ih f (by omega) t' pre' suf' hw' hc'
      cases inl with
      | some data =>
        have hv : d.hasVarint = true := by
          rw [← hiso]
          rfl
        have hhi : d.hasInlined = true := (schema_entry_facts hd).1.trans hv
        have hns : d.numSkips = 0 := (schema_entry_facts hd).2 hv
        have htrn : trailing = .nil := htr hns
        subst htrn
        -- unfold the serialized form
        have hser : serializeNode (.node tag (some data) extras fixed .nil)
            = tag :: ((encodeVarint data.length ++ data) ++ serializeList fixed) := by
          simp only [serializeNode, hdf, hns, inlineBytes, if_pos hhi, if_pos rfl,
            serializeList]
          simp
        rw [hser]
        -- the full buffer, in handy shapes
        have hbufshape : pre ++ ((tag :: ((encodeVarint data.length ++ data) ++ serializeList fixed)) ++ suf)
            = pre ++ tag :: (((encodeVarint data.length ++ data) ++ serializeList fixed) ++ suf) := by
          simp
        rw [hbufshape]
        simp only [ast_skip_tree, ast_fetch_tag, get?_append_at, hd]
        -- move_to_children
        have hgd : (pre ++ tag :: (((encodeVarint data.length ++ data) ++ serializeList fixed) ++ suf)).getD
            (pre.length + 1 - 1) 0 = tag := by
          have := getD_append_at pre tag (((encodeVarint data.length ++ data) ++ serializeList fixed) ++ suf)
          simpa using this
        have hdrop : (pre ++ tag :: (((encodeVarint data.length ++ data) ++ serializeList fixed) ++ suf)).drop
            (pre.length + 1)
            = encodeVarint data.length ++ (data ++ (serializeList fixed ++ suf)) := by
          have hsh : pre ++ tag :: (((encodeVarint data.length ++ data) ++ serializeList fixed) ++ suf)
              = (pre ++ [tag]) ++ (encodeVarint data.length ++ (data ++ (serializeList fixed ++ suf))) := by
            simp [List.append_assoc]
          rw [hsh]
          have hl : pre.length + 1 = ((pre ++ [tag]) : List Nat).length := by simp
          rw [hl, List.drop_left]
        have hmove : ast_move_to_children
            (pre ++ tag :: (((encodeVarint data.length ++ data) ++ serializeList fixed) ++ suf))
            (pre.length + 1)
            = pre.length + 1 + (encodeVarint data.length).length + data.length := by
          simp only [ast_move_to_children, hgd, hdf, hv, if_pos rfl, hdrop,
            decode_encode, hhi, hns]
          simp
        rw [hmove]
        -- the fixed children
        have hiter := iterN_skip f NC fixed
          (pre ++ tag :: (encodeVarint data.length ++ data)) suf
          (pre ++ tag :: (((encodeVarint data.length ++ data) ++ serializeList fixed) ++ suf))
          (by simp [List.append_assoc]) hwf (by omega)
        have hposeq : pre.length + 1 + (encodeVarint data.length).length + data.length
            = ((pre ++ tag :: (encodeVarint data.length ++ data)) : List Nat).length := by
          simp
          omega
        rw [hposeq, ← hlen]
        simp only [hiter]
        rw [if_neg (by omega : ¬ d.numSkips ≠ 0)]
        simp only [Option.some.injEq, List.length_append, List.length_cons]
        omega
      | none =>
        have hv : d.hasVarint = false := by
          rw [← hiso]
          rfl
        by_cases hns : d.numSkips = 0
        · have htrn : trailing = .nil := htr hns
          subst htrn
          have hser : serializeNode (.node tag none extras fixed .nil)
              = tag :: serializeList fixed := by
            simp only [serializeNode, hdf, hns, inlineBytes, if_pos rfl, serializeList]
            simp
          rw [hser]
          have hbufshape : pre ++ ((tag :: serializeList fixed) ++ suf)
              = pre ++ tag :: (serializeList fixed ++ suf) := by
            simp
          rw [hbufshape]
          simp only [ast_skip_tree, ast_fetch_tag, get?_append_at, hd]
          have hgd : (pre ++ tag :: (serializeList fixed ++ suf)).getD
              (pre.length + 1 - 1) 0 = tag := by
            have := getD_append_at pre tag (serializeList fixed ++ suf)
            simpa using this
          have hmove : ast_move_to_children (pre ++ tag :: (serializeList fixed ++ suf))
              (pre.length + 1) = pre.length + 1 := by
            simp only [ast_move_to_children, hgd, hdf, hv]
            simp [hns]
          rw [hmove]
          have hiter := iterN_skip f NC fixed (pre ++ [tag]) suf
            (pre ++ tag :: (serializeList fixed ++ suf))
            (by simp [List.append_assoc]) hwf (by omega)
          have hposeq : pre.length + 1 = ((pre ++ [tag]) : List Nat).length := by
            simp
          rw [hposeq, ← hlen]
          simp only [hiter]
          rw [if_neg (by omega : ¬ d.numSkips ≠ 0)]
          simp only [Option.some.injEq, List.length_append, List.length_cons,
            List.length_nil]
          omega
        · have hext' : extras.length = d.numSkips - 1 := by
            simpa [hns] using hext
          have hfit' := hfit hns
          simp only [inlineBytes, List.nil_append] at hfit'
          have hser : serializeNode (.node tag none extras fixed trailing)
              = tag :: ((be16 (2 * d.numSkips +
                  (serializeList fixed ++ serializeList trailing).length) ++
                  (extras.map be16).flatten) ++
                  (serializeList fixed ++ serializeList trailing)) := by
            simp only [serializeNode, hdf, if_neg hns, inlineBytes, List.nil_append]
          set FB := serializeList fixed with hFB
          set TB := serializeList trailing with hTB
          set E := 2 * d.numSkips + (FB ++ TB).length with hEdef
          set flat := (extras.map be16).flatten with hflat
          rw [hser]
          have hbufshape : pre ++ ((tag :: ((be16 E ++ flat) ++ (FB ++ TB))) ++ suf)
              = pre ++ tag :: (((be16 E ++ flat) ++ (FB ++ TB)) ++ suf) := by
            simp
          rw [hbufshape]
          simp only [ast_skip_tree, ast_fetch_tag, get?_append_at, hd]
          have hgd : (pre ++ tag :: (((be16 E ++ flat) ++ (FB ++ TB)) ++ suf)).getD
              (pre.length + 1 - 1) 0 = tag := by
            have := getD_append_at pre tag (((be16 E ++ flat) ++ (FB ++ TB)) ++ suf)
            simpa using this
          have hmove : ast_move_to_children
              (pre ++ tag :: (((be16 E ++ flat) ++ (FB ++ TB)) ++ suf))
              (pre.length + 1) = pre.length + 1 + 2 * d.numSkips := by
            simp only [ast_move_to_children, hgd, hdf, hv]
            simp
          rw [hmove]
          have hbl : ((be16 E) : List Nat).length = 2 := by
            simp [be16]
          have hfl : flat.length = 2 * extras.length := by
            rw [hflat]
            exact flatten_map_be16_length extras
          have hE3 : E = 2 * d.numSkips + (FB.length + TB.length) := by
            rw [hEdef]
            simp
          have hiter := iterN_skip f NC fixed (pre ++ tag :: (be16 E ++ flat)) (TB ++ suf)
            (pre ++ tag :: (((be16 E ++ flat) ++ (FB ++ TB)) ++ suf))
            (by simp [List.append_assoc]) hwf (by omega)
          have hposeq : pre.length + 1 + 2 * d.numSkips
              = ((pre ++ tag :: (be16 E ++ flat)) : List Nat).length := by
            simp only [List.length_append, List.length_cons, hbl, hfl]
            omega
          rw [hposeq, ← hlen]
          simp only [hiter]
          rw [if_pos hns]
          simp only [ast_get_skip, AST_END_SKIP, Nat.mul_zero, Nat.add_zero]
          have hElt : E < 65536 := by
            rw [hEdef]
            exact hfit'
          have hgb : getBE16 (pre ++ tag :: (((be16 E ++ flat) ++ (FB ++ TB)) ++ suf))
              (pre.length + 1) = E := by
            have hshape2 : pre ++ tag :: (((be16 E ++ flat) ++ (FB ++ TB)) ++ suf)
                = (pre ++ [tag]) ++ ((E / 256 % 256) :: ((E % 256) ::
                    (flat ++ ((FB ++ TB) ++ suf)))) := by
              simp [be16, List.append_assoc]
            rw [hshape2,
              show pre.length + 1 = ((pre ++ [tag]) : List Nat).length from by simp,
              getBE16_at, be16_val _ hElt]
          rw [hgb]
          have hwhile := whileLt_skip f NC trailing f
            (pre ++ tag :: ((be16 E ++ flat) ++ FB)) suf
            (pre ++ tag :: (((be16 E ++ flat) ++ (FB ++ TB)) ++ suf))
            (by simp [List.append_assoc]) hwt (by omega)
            (le_trans (lenList_le_cntList trailing) (by omega))
          have hE2 : pre.length + 1 + E
              = ((pre ++ tag :: ((be16 E ++ flat) ++ FB)) : List Nat).length
                + TB.length := by
            simp only [List.length_append, List.length_cons, hbl, hfl]
            omega
          have hP2 : ((pre ++ tag :: (be16 E ++ flat)) : List Nat).length + FB.length
              = ((pre ++ tag :: ((be16 E ++ flat) ++ FB)) : List Nat).length := by
            simp only [List.length_append, List.length_cons]
            omega
          rw [hE2, hP2, hwhile]
          simp only [Option.some.injEq, List.length_append, List.length_cons, hbl,
            hfl, List.length_nil]
          have hTBl : (serializeList trailing).length = TB.length := rfl
          rw [hTBl]
          omega
/-- C1: every well-formed tree produced by the writer operations (`build_node`
composes `ast_add_node` / `ast_add_inlined_node` with the closing `ast_set_skip`
fix-ups, exactly as the parser does) serializes to `serializeNode t`, and
walking that serialization with `ast_skip_tree` from the node's tag byte leaves
the cursor exactly on the first byte after the node — embedded in any
surrounding buffer, and in particular from offset 0 of the bare buffer the
cursor ends at the buffer length, whether or not the node has trailing
children. -/
theorem ast_skip_tree_roundtrip (t : ATree) (pre suf : List Nat)
    (h : wfNode t = true) :
    build_node pre t = some (pre ++ serializeNode t) ∧
    ast_skip_tree (pre ++ (serializeNode t ++ suf)) (cntNode t) pre.length
      = some (pre.length + (serializeNode t).length) ∧
    ast_skip_tree (serializeNode t) (cntNode t) 0
      = some (serializeNode t).length := by
  refine ⟨build_node_eq_serialize (cntNode t) t pre le_rfl h,
    ast_skip_tree_serialize (cntNode t) t pre suf h le_rfl, ?_⟩
  have h0 := ast_skip_tree_serialize (cntNode t) t [] [] h le_rfl
  simpa using h0

theorem ast_skip_tree_roundtrip_witness :
    wfNode ifExampleTree = true ∧
    serializeNode ifExampleTree = [5, 0, 8, 0, 8, 20, 1, 120, 35] ∧
    build_node [] ifExampleTree = some (serializeNode ifExampleTree) ∧
    ast_skip_tree (serializeNode ifExampleTree) (cntNode ifExampleTree) 0
      = some (serializeNode ifExampleTree).length :=
  ⟨by decide, by decide,
   by simpa using (ast_skip_tree_roundtrip ifExampleTree [] [] (by decide)).1,
   (ast_skip_tree_roundtrip ifExampleTree [] [] (by decide)).2.2⟩
/-- C6 (counterexample): with `new Date(2000, 0, 0)` — an explicitly supplied
day argument of 0 — the code's `if (a.args[tpdate] == 0) a.args[tpdate] = 1;`
rewrites the day to 1 and yields 2000-01-01 (946684800000 at `tza = 0`,
no DST), while the claim's reading (a supplied day used as given, only a
missing day defaulting to 1) yields `MakeDay(2000, 0, 0)` = 1999-12-31
(946598400000). -/
theorem Date_ctor_day_zero_cex :
    Date_ctor_multi 0 (fun _ => false) [2000, 0, 0] = 946684800000 ∧
    dateCtorClaim 0 (fun _ => false) [2000, 0, 0] = 946598400000 ∧
    Date_ctor_multi 0 (fun _ => false) [2000, 0, 0]
      ≠ dateCtorClaim 0 (fun _ => false) [2000, 0, 0] :=
  ⟨by decide, by decide, by decide⟩

/-- C6 (amended): with two to seven numeric arguments the constructor
interprets them as `(year, month, day, hour, min, sec, ms)`, lifts a year in
[0, 99] by 1900, and stores
`ecma_UTC(MakeDate(MakeDay(year, month, day), MakeTime(hour, min, sec, ms)))`
— except that a day slot equal to 0 (whether absent or explicitly 0: the
zero-initialized argument array cannot tell them apart) is replaced by 1. -/
theorem Date_ctor_multi_matches_amended (tza : Int) (dst : Int → Bool)
    (args : List Int) (h2 : 2 ≤ args.length) (h7 : args.length ≤ 7) :
    Date_ctor_multi tza dst args = dateCtorAmended tza dst args := by
  have hday : (if (args[2]?).getD 0 = 0 then (1 : Int) else (args[2]?).getD 0)
      = (if (args[2]?).getD 1 = 0 then 1 else (args[2]?).getD 1) := by
    rcases args[2]? with _ | v <;> simp
  simp only [Date_ctor_multi, dateCtorAmended, d_changepartoftime, d_gmktime,
    d_mktime_impl, Option.getD_some, List.getD]
  simp +decide
  rw [hday, Int.add_comm ((args[0]?).getD 0) 1900]
  rfl

theorem Date_ctor_multi_matches_amended_witness :
    (2 ≤ ([99, 0, 1] : List Int).length ∧ ([99, 0, 1] : List Int).length ≤ 7) ∧
    Date_ctor_multi 0 (fun _ => false) [99, 0, 1]
      = dateCtorAmended 0 (fun _ => false) [99, 0, 1] :=
  ⟨⟨by decide, by decide⟩,
   Date_ctor_multi_matches_amended 0 (fun _ => false) [99, 0, 1]
     (by decide) (by decide)⟩
theorem natDigitsAux_length_le :
    ∀ fuel n k, n < 10 ^ (k + 1) → (natDigitsAux fuel n).length ≤ k + 1 := by
  intro fuel
  induction fuel with
  | zero => intro n k _; simp [natDigitsAux]
  | succ fuel ih =>
    intro n k h
    by_cases h10 : n < 10
    · simp [natDigitsAux, h10]
    · rcases k with _ | k
      · exact absurd h (by simpa using h10)
      · have hdiv : n / 10 < 10 ^ (k + 1) := by
          rw [Nat.div_lt_iff_lt_mul (by norm_num)]
          calc n < 10 ^ (k + 1 + 1) := h
            _ = 10 ^ (k + 1) * 10 := pow_succ 10 (k + 1)
        have hrec := ih (n / 10) k hdiv
        simp only [natDigitsAux, if_neg h10, List.length_append,
          List.length_cons, List.length_nil]
        omega

theorem natDigits_length_le (n k : Nat) (h : n < 10 ^ (k + 1)) :
    (natDigits n).length ≤ k + 1 :=
  natDigitsAux_length_le (n + 1) n k h

theorem zeroPad_length_of_le (w : Nat) (ds : List Char) (h : ds.length ≤ w) :
    (zeroPad w ds).length = w := by
  simp only [zeroPad, List.length_append, List.length_replicate]
  omega

/-- C7 (counterexample): at `t = -62198668800000` the broken-down UTC year is
`-1`, outside `[0, 9999]`, but the formatter emits TWO sign characters — the
explicit first-byte sign AND the minus sign `%06d` prints for a negative
argument — followed by only five year digits: `--00001-...`, not the claimed
single sign plus six digits (the character after the single sign position is
`-`, not a digit). -/
theorem d_timetoISOstr_neg_year_double_sign :
    (d_gmtime (-62198668800000 : Int)).year = -1 ∧
    d_timetoISOstr (-62198668800000) =
      ('-' :: '-' :: ('0' :: '0' :: '0' :: '0' :: '1' ::
        ('-' :: '0' :: '1' :: '-' :: '0' :: '1' :: 'T' :: '0' :: '0' :: ':' ::
         '0' :: '0' :: ':' :: '0' :: '0' :: '.' :: '0' :: '0' :: '0' ::
         ['Z']))) ∧
    ((d_timetoISOstr (-62198668800000)).getD 1 '?').isDigit = false :=
  ⟨by decide, by decide, by decide⟩

/-- C7 (amended): the year field of `d_timetoISOstr`.  For a broken-down UTC
year in `[0, 9999]` it is a plain four-digit zero-padded field (as claimed).
For a year above 9999 it is `'+'` followed by six zero-padded digits (as
claimed).  For a negative year, however, the formatter emits `'-'` `'-'` —
the explicit sign byte plus the sign that `%06d` itself prints — followed by
the absolute year zero-padded to five digits (six characters after the two
signs only when the year itself has six digits). -/
theorem d_timetoISOstr_year_field (t : Int)
    (hlo : -271821 ≤ (d_gmtime t).year) (hhi : (d_gmtime t).year ≤ 275760) :
    (0 ≤ (d_gmtime t).year ∧ (d_gmtime t).year ≤ 9999 →
      d_timetoISOstr t
        = zeroPad 4 (natDigits (d_gmtime t).year.toNat) ++ isoTail (d_gmtime t)
      ∧ (zeroPad 4 (natDigits (d_gmtime t).year.toNat)).length = 4) ∧
    (9999 < (d_gmtime t).year →
      d_timetoISOstr t
        = '+' :: (zeroPad 6 (natDigits (d_gmtime t).year.toNat)
            ++ isoTail (d_gmtime t))
      ∧ (zeroPad 6 (natDigits (d_gmtime t).year.toNat)).length = 6) ∧
    ((d_gmtime t).year < 0 →
      d_timetoISOstr t
        = '-' :: '-' :: (zeroPad 5 (natDigits (-(d_gmtime t).year).toNat)
            ++ isoTail (d_gmtime t))
      ∧ 5 ≤ (zeroPad 5 (natDigits (-(d_gmtime t).year).toNat)).length
      ∧ (zeroPad 5 (natDigits (-(d_gmtime t).year).toNat)).length ≤ 6) := by
  refine ⟨fun hc => ?_, fun h9 => ?_, fun hn => ?_⟩
  · obtain ⟨h0, h9⟩ := hc
    have hue : (decide (9999 < |(d_gmtime t).year|)
        || decide ((d_gmtime t).year < 0)) = false := by
      rw [abs_of_nonneg h0]
      simp only [Bool.or_eq_false_iff, decide_eq_false_iff_not, not_lt]
      exact ⟨h9, h0⟩
    have hfmt : fmtPad 4 (d_gmtime t).year
        = zeroPad 4 (natDigits (d_gmtime t).year.toNat) := by
      rw [fmtPad, if_neg (not_lt.2 h0)]
    have hd : (natDigits (d_gmtime t).year.toNat).length ≤ 4 := by
      refine natDigits_length_le _ 3 ?_
      have h4 : (10 : Nat) ^ (3 + 1) = 10000 := by norm_num
      rw [h4]
      omega
    refine ⟨?_, zeroPad_length_of_le _ _ hd⟩
    simp [d_timetoISOstr, hue, hfmt, isoTail]
  · have hue : (decide (9999 < |(d_gmtime t).year|)
        || decide ((d_gmtime t).year < 0)) = true := by
      rw [abs_of_nonneg (by omega)]
      simp only [Bool.or_eq_true, decide_eq_true_eq]
      exact Or.inl h9
    have hfmt : fmtPad 6 (d_gmtime t).year
        = zeroPad 6 (natDigits (d_gmtime t).year.toNat) := by
      rw [fmtPad, if_neg (by omega)]
    have hd : (natDigits (d_gmtime t).year.toNat).length ≤ 6 := by
      refine natDigits_length_le _ 5 ?_
      have h6 : (10 : Nat) ^ (5 + 1) = 1000000 := by norm_num
      rw [h6]
      omega
    refine ⟨?_, zeroPad_length_of_le _ _ hd⟩
    simp [d_timetoISOstr, hue, hfmt, isoTail, if_pos (by omega : (0:Int) < (d_gmtime t).year)]
  · have hue : (decide (9999 < |(d_gmtime t).year|)
        || decide ((d_gmtime t).year < 0)) = true := by
      simp only [Bool.or_eq_true, decide_eq_true_eq]
      exact Or.inr hn
    have hfmt : fmtPad 6 (d_gmtime t).year
        = '-' :: zeroPad 5 (natDigits (-(d_gmtime t).year).toNat) := by
      rw [fmtPad, if_pos hn]
    have hd : (natDigits (-(d_gmtime t).year).toNat).length ≤ 6 := by
      refine natDigits_length_le _ 5 ?_
      have h6 : (10 : Nat) ^ (5 + 1) = 1000000 := by norm_num
      rw [h6]
      omega
    refine ⟨?_, ?_, ?_⟩
    · simp [d_timetoISOstr, hue, hfmt, isoTail, if_neg (by omega : ¬ (0:Int) < (d_gmtime t).year)]
    · simp only [zeroPad, List.length_append, List.length_replicate]
      omega
    · simp only [zeroPad, List.length_append, List.length_replicate]
      omega

theorem d_timetoISOstr_year_field_witness :
    (-271821 ≤ (d_gmtime (0 : Int)).year ∧ (d_gmtime (0 : Int)).year ≤ 275760)
    ∧ (0 ≤ (d_gmtime (0 : Int)).year ∧ (d_gmtime (0 : Int)).year ≤ 9999)
    ∧ d_timetoISOstr 0
        = zeroPad 4 (natDigits (d_gmtime (0 : Int)).year.toNat)
            ++ isoTail (d_gmtime 0) :=
  ⟨⟨by decide, by decide⟩, ⟨by decide, by decide⟩,
   ((d_timetoISOstr_year_field 0 (by decide) (by decide)).1
     ⟨by decide, by decide⟩).1⟩
theorem dfy_expand (y : Int) (h : 1969 ≤ y) :
    ecma_DayFromYear y
      = 365 * (y - 1970) + (y - 1969) / 4 - (y - 1901) / 100 + (y - 1601) / 400 := by
  unfold ecma_DayFromYear
  rw [Int.tdiv_eq_ediv (by omega) (by omega),
    Int.tdiv_eq_ediv (by omega) (by omega),
    Int.tdiv_eq_ediv (by omega) (by omega)]

theorem diy_cases (y : Int) :
    ecma_DaysInYear y = 365 ∨ ecma_DaysInYear y = 366 := by
  unfold ecma_DaysInYear
  split_ifs <;> simp

theorem dfy_step (y : Int) (h : 1969 ≤ y) :
    ecma_DayFromYear (y + 1) - ecma_DayFromYear y = ecma_DaysInYear y := by
  rw [dfy_expand y h, dfy_expand (y + 1) (by omega)]
  unfold ecma_DaysInYear
  rw [Int.tmod_eq_emod (by omega) (by omega),
    Int.tmod_eq_emod (by omega) (by omega),
    Int.tmod_eq_emod (by omega) (by omega)]
  split_ifs <;> omega

theorem dfy_mono (y1 y2 : Int) (h1 : 1969 ≤ y1) (h : y1 ≤ y2) :
    ecma_DayFromYear y1 ≤ ecma_DayFromYear y2 := by
  rw [dfy_expand y1 h1, dfy_expand y2 (by omega)]
  omega

theorem dfy_mono_strict (y1 y2 : Int) (h1 : 1969 ≤ y1) (h : y1 < y2) :
    ecma_DayFromYear y1 < ecma_DayFromYear y2 := by
  rw [dfy_expand y1 h1, dfy_expand y2 (by omega)]
  omega

theorem tfy_mono (y1 y2 : Int) (h1 : 1969 ≤ y1) (h : y1 ≤ y2) :
    ecma_TimeFromYear y1 ≤ ecma_TimeFromYear y2 := by
  unfold ecma_TimeFromYear msPerDay
  have := dfy_mono y1 y2 h1 h
  omega

theorem tfy_ten_thousand : ecma_TimeFromYear 10000 = 253402300800000 := by decide

/-- Correctness of the bisection loop of `ecma_YearFromTime_s`: given a valid
bracket `TimeFromYear first ≤ t < TimeFromYear (last + 1)` and enough fuel,
the loop returns a year `y` in the bracket with
`TimeFromYear y ≤ t < TimeFromYear (y + 1)`. -/
theorem yft_loop_correct (t : Int) :
    ∀ fuel (first last : Int), 1969 ≤ first → first ≤ last →
      (last - first).toNat < fuel →
      ecma_TimeFromYear first ≤ t → t < ecma_TimeFromYear (last + 1) →
      ecma_TimeFromYear (yft_loop t fuel first last) ≤ t ∧
      t < ecma_TimeFromYear (yft_loop t fuel first last + 1) ∧
      first ≤ yft_loop t fuel first last ∧
      yft_loop t fuel first last ≤ last := by
  intro fuel
  induction fuel with
  | zero => intro first last _ _ hf _ _; omega
  | succ fuel ih =>
    intro first last h69 hfl hfuel hlow hhigh
    by_cases hgt : last > first
    · have hmid : Int.tdiv (last + first) 2 = (last + first) / 2 :=
        Int.tdiv_eq_ediv (by omega) (by omega)
      simp only [yft_loop, if_pos hgt, hmid]
      set middle := (last + first) / 2 with hmdef
      have hm1 : first ≤ middle := by omega
      have hm2 : middle < last := by omega
      by_cases hgtm : ecma_TimeFromYear middle > t
      · rw [if_pos hgtm]
        have hne : first ≠ middle := by
          intro he
          rw [← he] at hgtm
          omega
        have hrec := ih first (middle - 1) h69 (by omega) (by omega) hlow
          (by simpa using hgtm)
        exact ⟨hrec.1, hrec.2.1, hrec.2.2.1, by omega⟩
      · rw [if_neg hgtm, if_pos (by omega)]
        by_cases hnext : ecma_TimeFromYear (middle + 1) > t
        · rw [if_pos hnext]
          exact ⟨by omega, by omega, hm1, by omega⟩
        · rw [if_neg hnext]
          have hrec := ih (middle + 1) last (by omega) (by omega) (by omega)
            (by omega) hhigh
          exact ⟨hrec.1, hrec.2.1, by omega, hrec.2.2.2⟩
    · simp only [yft_loop, if_neg hgt]
      have : first = last := by omega
      exact ⟨hlow, by rw [this]; exact hhigh, le_refl first, by omega⟩

/-- The initial bisection bracket of `ecma_YearFromTime_s` is valid for
`0 ≤ t`. -/
theorem yft_init (t : Int) (h0 : 0 ≤ t) :
    ecma_TimeFromYear (t / 31622400000 + 1970) ≤ t ∧
    t < ecma_TimeFromYear (t / 31536000000 + 1971) := by
  have hq : 0 ≤ t / 31622400000 := Int.ediv_nonneg h0 (by omega)
  have hp : 0 ≤ t / 31536000000 := Int.ediv_nonneg h0 (by omega)
  unfold ecma_TimeFromYear msPerDay
  rw [dfy_expand _ (by omega), dfy_expand _ (by omega)]
  omega

/-- `ecma_YearFromTime_s` is correct on `[0, TimeFromYear 10000)`: it returns
the unique year `y ∈ [1970, 9999]` with `TimeFromYear y ≤ t <
TimeFromYear (y + 1)`. -/
theorem yearFromTime_correct (t : Int) (h0 : 0 ≤ t) :
    1970 ≤ ecma_YearFromTime_s t ∧
    ecma_TimeFromYear (ecma_YearFromTime_s t) ≤ t ∧
    t < ecma_TimeFromYear (ecma_YearFromTime_s t + 1) := by
  have hinit := yft_init t h0
  have h366 : Int.fdiv t (msPerDay * 366) = t / 31622400000 := by
    rw [show msPerDay * 366 = 31622400000 from by decide]
    exact Int.fdiv_eq_ediv t (by omega)
  have h365 : Int.fdiv t (msPerDay * 365) = t / 31536000000 := by
    rw [show msPerDay * 365 = 31536000000 from by decide]
    exact Int.fdiv_eq_ediv t (by omega)
  have hq : 0 ≤ t / 31622400000 := Int.ediv_nonneg h0 (by omega)
  have hqp : t / 31622400000 ≤ t / 31536000000 := by omega
  unfold ecma_YearFromTime_s yftRun
  rw [h366, h365, if_neg (by omega : ¬ (t / 31536000000 + 1970 < t / 31622400000 + 1970))]
  have hloop := yft_loop_correct t
    ((t / 31536000000 + 1970 - (t / 31622400000 + 1970)).toNat + 1)
    (t / 31622400000 + 1970) (t / 31536000000 + 1970)
    (by omega) (by omega) (by omega) hinit.1
    (by
      have he : t / 31536000000 + 1970 + 1 = t / 31536000000 + 1971 := by omega
      rw [he]
      exact hinit.2)
  exact ⟨by omega, hloop.1, hloop.2.1⟩

/-- Upper bound of the returned year below a `TimeFromYear` threshold. -/
theorem yearFromTime_lt_of (t bound : Int) (h0 : 0 ≤ t)
    (hb : 1969 ≤ bound)
    (hlim : t < ecma_TimeFromYear bound) :
    ecma_YearFromTime_s t < bound := by
  obtain ⟨hY1, hYlo, _⟩ := yearFromTime_correct t h0
  by_contra hgt
  push_neg at hgt
  have hmono := tfy_mono bound (ecma_YearFromTime_s t) hb hgt
  omega

/-- Lower bound of the returned year above a `TimeFromYear` threshold. -/
theorem yearFromTime_ge_of (t bound : Int) (h0 : 0 ≤ t)
    (hb : 1969 ≤ bound)
    (hlim : ecma_TimeFromYear bound ≤ t) :
    bound ≤ ecma_YearFromTime_s t := by
  obtain ⟨hY1, _, hYhi⟩ := yearFromTime_correct t h0
  by_contra hgt
  push_neg at hgt
  have hmono := tfy_mono (ecma_YearFromTime_s t + 1) bound (by omega) (by omega)
  omega
set_option maxRecDepth 8000 in
theorem monthSearch_leap_facts : ∀ n : Fin 366,
    0 ≤ monthSearch (ecma_getfirstdays true) ((n : Nat) : Int) 12 0 ∧
    monthSearch (ecma_getfirstdays true) ((n : Nat) : Int) 12 0 ≤ 11 ∧
    (ecma_getfirstdays true).getD
        (monthSearch (ecma_getfirstdays true) ((n : Nat) : Int) 12 0).toNat 0
      ≤ ((n : Nat) : Int) ∧
    ((n : Nat) : Int) -
        (ecma_getfirstdays true).getD
          (monthSearch (ecma_getfirstdays true) ((n : Nat) : Int) 12 0).toNat 0
        + 1 ≤ 31 := by
  decide

set_option maxRecDepth 8000 in
theorem monthSearch_noleap_facts : ∀ n : Fin 365,
    0 ≤ monthSearch (ecma_getfirstdays false) ((n : Nat) : Int) 12 0 ∧
    monthSearch (ecma_getfirstdays false) ((n : Nat) : Int) 12 0 ≤ 11 ∧
    (ecma_getfirstdays false).getD
        (monthSearch (ecma_getfirstdays false) ((n : Nat) : Int) 12 0).toNat 0
      ≤ ((n : Nat) : Int) ∧
    ((n : Nat) : Int) -
        (ecma_getfirstdays false).getD
          (monthSearch (ecma_getfirstdays false) ((n : Nat) : Int) 12 0).toNat 0
        + 1 ≤ 31 := by
  decide

/-- The `ecma_MonthFromTime` search, on any day-within-year in range for the
given table, returns a month in `[0, 11]` whose cumulative-days entry brackets
the day from below, at distance at most 30. -/
theorem monthSearch_facts (isleap : Bool) (dwy : Int) (h0 : 0 ≤ dwy)
    (hlt : dwy < if isleap then 366 else 365) :
    0 ≤ monthSearch (ecma_getfirstdays isleap) dwy 12 0 ∧
    monthSearch (ecma_getfirstdays isleap) dwy 12 0 ≤ 11 ∧
    (ecma_getfirstdays isleap).getD
        (monthSearch (ecma_getfirstdays isleap) dwy 12 0).toNat 0 ≤ dwy ∧
    dwy -
        (ecma_getfirstdays isleap).getD
          (monthSearch (ecma_getfirstdays isleap) dwy 12 0).toNat 0
        + 1 ≤ 31 := by
  obtain ⟨n, rfl⟩ := Int.eq_ofNat_of_zero_le h0
  cases isleap
  · have hn : n < 365 := by exact_mod_cast (by simpa using hlt)
    exact monthSearch_noleap_facts ⟨n, hn⟩
  · have hn : n < 366 := by exact_mod_cast (by simpa using hlt)
    exact monthSearch_leap_facts ⟨n, hn⟩

/-- Master lemma for `d_gmtime` on `[0, TimeFromYear 10000)`: every
broken-down field lies in its printable/parsable range, and `d_gmktime`
rebuilds exactly `t` from any `timeparts` value that agrees with
`d_gmtime t` on the seven calendar fields (`dayofweek` is ignored). -/
theorem gmtime_master (t : Int) (h0 : 0 ≤ t) :
    1970 ≤ (d_gmtime t).year ∧
    (0 ≤ (d_gmtime t).month ∧ (d_gmtime t).month ≤ 11) ∧
    (1 ≤ (d_gmtime t).day ∧ (d_gmtime t).day ≤ 31) ∧
    (0 ≤ (d_gmtime t).hour ∧ (d_gmtime t).hour ≤ 23) ∧
    (0 ≤ (d_gmtime t).min ∧ (d_gmtime t).min ≤ 59) ∧
    (0 ≤ (d_gmtime t).sec ∧ (d_gmtime t).sec ≤ 59) ∧
    (0 ≤ (d_gmtime t).msec ∧ (d_gmtime t).msec ≤ 999) ∧
    (∀ tp : TimeParts, tp.year = (d_gmtime t).year →
      tp.month = (d_gmtime t).month → tp.day = (d_gmtime t).day →
      tp.hour = (d_gmtime t).hour → tp.min = (d_gmtime t).min →
      tp.sec = (d_gmtime t).sec → tp.msec = (d_gmtime t).msec →
      d_gmktime tp = t) := by
  obtain ⟨hY1, hYlo, hYhi⟩ := yearFromTime_correct t h0
  have hDay : ecma_Day t = t / 86400000 := by
    unfold ecma_Day msPerDay
    exact Int.fdiv_eq_ediv t (by omega)
  have hTlo : 86400000 * ecma_DayFromYear (ecma_YearFromTime_s t) ≤ t := by
    have := hYlo
    unfold ecma_TimeFromYear msPerDay at this
    exact this
  have hstep := dfy_step (ecma_YearFromTime_s t) (by omega)
  have hThi : t < 86400000 * ecma_DayFromYear (ecma_YearFromTime_s t + 1) := by
    have := hYhi
    unfold ecma_TimeFromYear msPerDay at this
    exact this
  have hdwyeq : ecma_DayWithinYear t (ecma_YearFromTime_s t)
      = t / 86400000 - ecma_DayFromYear (ecma_YearFromTime_s t) := by
    unfold ecma_DayWithinYear
    rw [hDay]
  have hdwy0 : 0 ≤ ecma_DayWithinYear t (ecma_YearFromTime_s t) := by
    rw [hdwyeq]
    omega
  have hdwyhi : ecma_DayWithinYear t (ecma_YearFromTime_s t)
      < ecma_DaysInYear (ecma_YearFromTime_s t) := by
    rw [hdwyeq]
    omega
  have hflag : ecma_DayWithinYear t (ecma_YearFromTime_s t)
      < if ecma_InLeapYear (ecma_YearFromTime_s t) then 366 else 365 := by
    rcases diy_cases (ecma_YearFromTime_s t) with hd | hd
    · have hf : ecma_InLeapYear (ecma_YearFromTime_s t) = false := by
        simp [ecma_InLeapYear, hd]
      rw [hf]
      simp only [Bool.false_eq_true, if_false]
      omega
    · have hf : ecma_InLeapYear (ecma_YearFromTime_s t) = true := by
        simp [ecma_InLeapYear, hd]
      rw [hf]
      simp only [if_true]
      omega
  obtain ⟨hM0, hM11, hMlo, hMhi⟩ :=
    monthSearch_facts (ecma_InLeapYear (ecma_YearFromTime_s t))
      (ecma_DayWithinYear t (ecma_YearFromTime_s t)) hdwy0 hflag
  have hgmonth : (d_gmtime t).month
      = monthSearch (ecma_getfirstdays (ecma_InLeapYear (ecma_YearFromTime_s t)))
          (ecma_DayWithinYear t (ecma_YearFromTime_s t)) 12 0 := by
    simp only [d_gmtime, ecma_MonthFromTime]
  have hgday : (d_gmtime t).day
      = ecma_DayWithinYear t (ecma_YearFromTime_s t) -
          (ecma_getfirstdays (ecma_InLeapYear (ecma_YearFromTime_s t))).getD
            (monthSearch
              (ecma_getfirstdays (ecma_InLeapYear (ecma_YearFromTime_s t)))
              (ecma_DayWithinYear t (ecma_YearFromTime_s t)) 12 0).toNat 0
          + 1 := by
    simp only [d_gmtime, ecma_DateFromTime, ecma_MonthFromTime]
    rw [if_neg (by omega)]
  have hgyear : (d_gmtime t).year = ecma_YearFromTime_s t := by
    simp only [d_gmtime]
  have hghour : (d_gmtime t).hour = (t / 3600000) % 24 := by
    simp only [d_gmtime, ecma_HourFromTime, msPerHour]
    rw [Int.fdiv_eq_ediv t (by omega),
      Int.tmod_eq_emod (Int.ediv_nonneg h0 (by omega)) (by omega)]
  have hgmin : (d_gmtime t).min = (t / 60000) % 60 := by
    simp only [d_gmtime, ecma_MinFromTime, msPerMinute]
    rw [Int.fdiv_eq_ediv t (by omega),
      Int.tmod_eq_emod (Int.ediv_nonneg h0 (by omega)) (by omega)]
  have hgsec : (d_gmtime t).sec = (t / 1000) % 60 := by
    simp only [d_gmtime, ecma_SecFromTime, msPerSecond]
    rw [Int.fdiv_eq_ediv t (by omega),
      Int.tmod_eq_emod (Int.ediv_nonneg h0 (by omega)) (by omega)]
  have hgmsec : (d_gmtime t).msec = t % 1000 := by
    simp only [d_gmtime, ecma_msFromTime]
    rw [Int.tmod_eq_emod h0 (by omega)]
  refine ⟨by rw [hgyear]; omega,
    ⟨by rw [hgmonth]; omega, by rw [hgmonth]; omega⟩,
    ⟨by rw [hgday]; omega, by rw [hgday]; omega⟩,
    ⟨by rw [hghour]; omega, by rw [hghour]; omega⟩,
    ⟨by rw [hgmin]; omega, by rw [hgmin]; omega⟩,
    ⟨by rw [hgsec]; omega, by rw [hgsec]; omega⟩,
    ⟨by rw [hgmsec]; omega, by rw [hgmsec]; omega⟩, ?_⟩
  intro tp hy hmo hd hh hmi hs hms
  rw [hgyear] at hy
  rw [hgmonth] at hmo
  rw [hgday] at hd
  rw [hghour] at hh
  rw [hgmin] at hmi
  rw [hgsec] at hs
  rw [hgmsec] at hms
  unfold d_gmktime d_mktime_impl
  rw [hy, hmo, hd, hh, hmi, hs, hms]
  simp only [ecma_MakeDay, ecma_MakeDate, ecma_MakeTime, ecma_TimeFromYear,
    msPerDay]
  rw [Int.tdiv_eq_ediv hM0 (by omega), Int.tmod_eq_emod hM0 (by omega)]
  have hdv : monthSearch
      (ecma_getfirstdays (ecma_InLeapYear (ecma_YearFromTime_s t)))
      (ecma_DayWithinYear t (ecma_YearFromTime_s t)) 12 0 / 12 = 0 := by
    omega
  have hmd : monthSearch
      (ecma_getfirstdays (ecma_InLeapYear (ecma_YearFromTime_s t)))
      (ecma_DayWithinYear t (ecma_YearFromTime_s t)) 12 0 % 12
      = monthSearch
          (ecma_getfirstdays (ecma_InLeapYear (ecma_YearFromTime_s t)))
          (ecma_DayWithinYear t (ecma_YearFromTime_s t)) 12 0 := by
    omega
  rw [hdv, hmd, add_zero]
  have hyd : Int.fdiv (86400000 * ecma_DayFromYear (ecma_YearFromTime_s t))
      86400000 = ecma_DayFromYear (ecma_YearFromTime_s t) := by
    rw [Int.fdiv_eq_ediv _ (by omega)]
    exact Int.mul_ediv_cancel_left _ (by omega)
  rw [hyd]
  show (ecma_DayFromYear (ecma_YearFromTime_s t) +
      (ecma_getfirstdays (ecma_DaysInYear (ecma_YearFromTime_s t) == 366)).getD
        (monthSearch
          (ecma_getfirstdays (ecma_InLeapYear (ecma_YearFromTime_s t)))
          (ecma_DayWithinYear t (ecma_YearFromTime_s t)) 12 0).toNat 0 +
      (ecma_DayWithinYear t (ecma_YearFromTime_s t) -
        (ecma_getfirstdays (ecma_InLeapYear (ecma_YearFromTime_s t))).getD
          (monthSearch
            (ecma_getfirstdays (ecma_InLeapYear (ecma_YearFromTime_s t)))
            (ecma_DayWithinYear t (ecma_YearFromTime_s t)) 12 0).toNat 0 + 1)
      - 1) * 86400000 +
      ((((t / 3600000) % 24 * 60 + (t / 60000) % 60) * 60 + (t / 1000) % 60) *
        1000 + t % 1000) = t
  rw [show (ecma_DaysInYear (ecma_YearFromTime_s t) == 366)
      = ecma_InLeapYear (ecma_YearFromTime_s t) from rfl]
  rw [hdwyeq]
  omega

theorem gmtime_year_eq (t : Int) :
    (d_gmtime t).year = ecma_YearFromTime_s t := by
  simp only [d_gmtime]

/-- Below `TimeFromYear 10000` the broken-down year has at most four digits. -/
theorem gmtime_year_le9999 (t : Int) (h0 : 0 ≤ t)
    (hlim : t < 253402300800000) : (d_gmtime t).year ≤ 9999 := by
  have h := yearFromTime_lt_of t 10000 h0 (by omega)
    (by rw [tfy_ten_thousand]; exact hlim)
  rw [gmtime_year_eq]
  omega

/-- From `TimeFromYear 10000` on the broken-down year is at least 10000. -/
theorem gmtime_year_ge10000 (t : Int) (h0 : 0 ≤ t)
    (hge : 253402300800000 ≤ t) : 10000 ≤ (d_gmtime t).year := by
  have h := yearFromTime_ge_of t 10000 h0 (by omega)
    (by rw [tfy_ten_thousand]; exact hge)
  rw [gmtime_year_eq]
  omega

/-- Through the end of the ECMA time range the broken-down year stays at most
275760, hence within six decimal digits. -/
theorem gmtime_year_le_max (t : Int) (h0 : 0 ≤ t)
    (hlim : t ≤ 8640000000000000) : (d_gmtime t).year ≤ 275760 := by
  have h := yearFromTime_lt_of t 275761 h0 (by omega)
    (by
      have hv : (8640000000000000 : Int) < ecma_TimeFromYear 275761 := by
        decide
      omega)
  rw [gmtime_year_eq]
  omega
theorem digitChar_isDigit (n : Nat) (h : n < 10) :
    isDigitCh (digitChar n) = true := by
  interval_cases n <;> decide

theorem digitChar_toNat (n : Nat) (h : n < 10) :
    (digitChar n).toNat = n + 48 := by
  interval_cases n <;> decide

theorem natDigitsAux_digits :
    ∀ fuel n, 0 < fuel → n < 10 ^ fuel →
      ∀ c ∈ natDigitsAux fuel n, isDigitCh c = true := by
  intro fuel
  induction fuel with
  | zero => intro n h; omega
  | succ fuel ih =>
    intro n _ hlt c hc
    by_cases h10 : n < 10
    · simp only [natDigitsAux, if_pos h10, List.mem_singleton] at hc
      rw [hc]
      exact digitChar_isDigit n h10
    · simp only [natDigitsAux, if_neg h10, List.mem_append,
        List.mem_singleton] at hc
      rcases hc with hc | hc
      · have hf : 0 < fuel := by
          rcases Nat.eq_zero_or_pos fuel with hz | hp
          · subst hz
            simp at hlt
            omega
          · exact hp
        have hdivlt : n / 10 < 10 ^ fuel := by
          rw [Nat.div_lt_iff_lt_mul (by norm_num)]
          calc n < 10 ^ (fuel + 1) := hlt
            _ = 10 ^ fuel * 10 := pow_succ 10 fuel
        exact ih (n / 10) hf hdivlt c hc
      · rw [hc]
        exact digitChar_isDigit (n % 10) (Nat.mod_lt n (by norm_num))

theorem natDigits_digits (n : Nat) :
    ∀ c ∈ natDigits n, isDigitCh c = true := by
  refine natDigitsAux_digits (n + 1) n (by omega) ?_
  calc n < 10 ^ n := Nat.lt_pow_self (by norm_num) n
    _ ≤ 10 ^ (n + 1) := Nat.pow_le_pow_right (by norm_num) (by omega)

theorem zeroPad_digits (w : Nat) (n : Nat) :
    ∀ c ∈ zeroPad w (natDigits n), isDigitCh c = true := by
  intro c hc
  simp only [zeroPad, List.mem_append] at hc
  rcases hc with hc | hc
  · rw [List.eq_of_mem_replicate hc]
    decide
  · exact natDigits_digits n c hc

theorem foldl_natDigitsAux :
    ∀ fuel n acc, n < 10 ^ fuel →
      List.foldl (fun a c => a * 10 + (c.toNat - 48)) acc (natDigitsAux fuel n)
        = acc * 10 ^ (natDigitsAux fuel n).length + n := by
  intro fuel
  induction fuel with
  | zero =>
    intro n acc h
    simp only [natDigitsAux, List.foldl_nil, List.length_nil, pow_zero]
    omega
  | succ fuel ih =>
    intro n acc hlt
    by_cases h10 : n < 10
    · simp only [natDigitsAux, if_pos h10, List.foldl_cons, List.foldl_nil,
        List.length_singleton, pow_one, digitChar_toNat n h10]
      omega
    · have hdivlt : n / 10 < 10 ^ fuel := by
        rw [Nat.div_lt_iff_lt_mul (by norm_num)]
        calc n < 10 ^ (fuel + 1) := hlt
          _ = 10 ^ fuel * 10 := pow_succ 10 fuel
      have hrec := ih (n / 10) acc hdivlt
      simp only [natDigitsAux, if_neg h10, List.foldl_append, List.foldl_cons,
        List.foldl_nil, List.length_append, List.length_singleton, hrec,
        digitChar_toNat (n % 10) (Nat.mod_lt n (by norm_num))]
      rw [pow_succ]
      have hmn : n % 10 + 48 - 48 = n % 10 := by omega
      rw [hmn]
      have hsplit : n = 10 * (n / 10) + n % 10 := (Nat.div_add_mod n 10).symm
      ring_nf
      omega

theorem foldl_natDigits (n acc : Nat) :
    List.foldl (fun a c => a * 10 + (c.toNat - 48)) acc (natDigits n)
      = acc * 10 ^ (natDigits n).length + n := by
  refine foldl_natDigitsAux (n + 1) n acc ?_
  calc n < 10 ^ n := Nat.lt_pow_self (by norm_num) n
    _ ≤ 10 ^ (n + 1) := Nat.pow_le_pow_right (by norm_num) (by omega)

theorem foldl_zeros (k : Nat) :
    List.foldl (fun a c => a * 10 + (c.toNat - 48)) 0
      (List.replicate k '0') = 0 := by
  induction k with
  | zero => rfl
  | succ k ih => simpa [List.replicate_succ] using ih

theorem foldl_zeroPad (w n : Nat) :
    List.foldl (fun a c => a * 10 + (c.toNat - 48)) 0 (zeroPad w (natDigits n))
      = n := by
  rw [zeroPad, List.foldl_append, foldl_zeros, foldl_natDigits]
  simp

theorem natDigits_ne_nil (n : Nat) : natDigits n ≠ [] := by
  unfold natDigits natDigitsAux
  by_cases h10 : n < 10 <;> simp [h10]

theorem zeroPad_natDigits_length_pos (w n : Nat) :
    0 < (zeroPad w (natDigits n)).length := by
  simp only [zeroPad, List.length_append, List.length_replicate]
  have := natDigits_ne_nil n
  have : 0 < (natDigits n).length := List.length_pos.mpr this
  omega

/-- `readDigitsW` on a run of digits followed by a stopper: it consumes
exactly the digit run when either the width equals the run's length or the
first unread character is not a digit. -/
theorem readDigitsW_exact :
    ∀ ds : List Char, ∀ w acc, ∀ r : List Char,
      (∀ c ∈ ds, isDigitCh c = true) → ds.length ≤ w →
      (w = ds.length ∨ ∀ c, r.head? = some c → isDigitCh c = false) →
      readDigitsW w acc (ds ++ r)
        = (ds.length, List.foldl (fun a c => a * 10 + (c.toNat - 48)) acc ds,
            r) := by
  intro ds
  induction ds with
  | nil =>
    intro w acc r _ _ hstop
    rcases hstop with hw | hr
    · simp only [List.length_nil] at hw
      subst hw
      simp [readDigitsW]
    · match w, r with
      | 0, r => simp [readDigitsW]
      | w + 1, [] => simp [readDigitsW]
      | w + 1, c :: rest =>
        have hc := hr c rfl
        simp [readDigitsW, hc]
  | cons c ds ih =>
    intro w acc r hdig hlen hstop
    match w with
    | 0 => simp at hlen
    | w + 1 =>
      have hc : isDigitCh c = true := hdig c (List.mem_cons_self c ds)
      simp only [List.cons_append, readDigitsW, if_pos hc, List.append_eq]
      have hrec := ih w (acc * 10 + (c.toNat - 48)) r
        (fun x hx => hdig x (List.mem_cons_of_mem c hx)) (by simpa using hlen)
        (by
          rcases hstop with hw | hr
          · left
            simpa using hw
          · right
            exact hr)
      rw [hrec]
      simp [List.foldl_cons]

theorem skipSpaces_digit (c : Char) (r : List Char)
    (h : isDigitCh c = true) : skipSpaces (c :: r) = c :: r := by
  have hs : isSpaceCh c = false := by
    unfold isDigitCh at h
    simp only [Bool.and_eq_true, decide_eq_true_eq] at h
    unfold isSpaceCh
    have h1 : ¬ c = ' ' := fun he => by rw [he] at h; exact absurd h (by decide)
    have h2 : ¬ c = '\t' := fun he => by rw [he] at h; exact absurd h (by decide)
    have h3 : ¬ c = '\n' := fun he => by rw [he] at h; exact absurd h (by decide)
    have h4 : ¬ c = '\r' := fun he => by rw [he] at h; exact absurd h (by decide)
    simp [h1, h2, h3, h4]
  simp [skipSpaces, hs]

theorem digit_not_sign (c : Char) (h : isDigitCh c = true) :
    ¬ c = '-' ∧ ¬ c = '+' := by
  unfold isDigitCh at h
  simp only [Bool.and_eq_true, decide_eq_true_eq] at h
  exact ⟨fun he => by rw [he] at h; exact absurd h (by decide),
    fun he => by rw [he] at h; exact absurd h (by decide)⟩

/-- `scanInt` on a nonempty digit run followed by a stopper reads the run's
decimal value (no sign, no skipped spaces). -/
theorem scanInt_digits (w : Option Nat) (ds r : List Char)
    (hne : ds ≠ [])
    (hdig : ∀ c ∈ ds, isDigitCh c = true)
    (hstop : w = some ds.length ∨
      (w = none ∧ ∀ c, r.head? = some c → isDigitCh c = false)) :
    scanInt w (ds ++ r)
      = some (((List.foldl (fun a c => a * 10 + (c.toNat - 48)) 0 ds : Nat) :
          Int), r) := by
  match ds, hne with
  | c :: ds, _ =>
    have hc : isDigitCh c = true := hdig c (List.mem_cons_self c ds)
    have hsign := digit_not_sign c hc
    simp only [scanInt, List.cons_append, skipSpaces_digit c _ (by
      exact hc), if_neg hsign.1, if_neg hsign.2]
    rcases hstop with hw | ⟨hw, hr⟩
    · subst hw
      have hrd := readDigitsW_exact (c :: ds) (c :: ds).length 0 r hdig
        (le_refl _) (Or.inl rfl)
      simp only [List.cons_append] at hrd
      rw [hrd]
      simp
    · subst hw
      have hrd := readDigitsW_exact (c :: ds) ((c :: ds) ++ r).length 0 r hdig
        (by simp) (Or.inr hr)
      simp only [List.cons_append] at hrd
      rw [hrd]
      simp

theorem lit_cons (c : Char) (r : List Char) : lit c (c :: r) = some r := by
  simp [lit]
theorem fmtPad_nonneg (w : Nat) (x : Int) (hx : 0 ≤ x) :
    fmtPad w x = zeroPad w (natDigits x.toNat) := by
  rw [fmtPad, if_neg (not_lt.2 hx)]

/-- On `[0, TimeFromYear 10000)` the ISO formatter produces the canonical
`YYYY-MM-DDTHH:MM:SS.mmmZ` layout (four-digit zero-padded year, two/three
digit zero-padded fields, no sign bytes). -/
theorem d_timetoISOstr_canonical (t : Int) (h0 : 0 ≤ t)
    (hlim : t < 253402300800000) :
    d_timetoISOstr t
      = zeroPad 4 (natDigits (d_gmtime t).year.toNat) ++
        ('-' :: (zeroPad 2 (natDigits ((d_gmtime t).month + 1).toNat) ++
        ('-' :: (zeroPad 2 (natDigits (d_gmtime t).day.toNat) ++
        ('T' :: (zeroPad 2 (natDigits (d_gmtime t).hour.toNat) ++
        (':' :: (zeroPad 2 (natDigits (d_gmtime t).min.toNat) ++
        (':' :: (zeroPad 2 (natDigits (d_gmtime t).sec.toNat) ++
        ('.' :: (zeroPad 3 (natDigits (d_gmtime t).msec.toNat) ++
          ['Z'])))))))))))) := by
  have hy2 := gmtime_year_le9999 t h0 hlim
  obtain ⟨hy1, ⟨hm1, hm2⟩, ⟨hd1, hd2⟩, ⟨hh1, hh2⟩, ⟨hmi1, hmi2⟩,
    ⟨hs1, hs2⟩, ⟨hms1, hms2⟩, _⟩ := gmtime_master t h0
  have hue : (decide (9999 < |(d_gmtime t).year|)
      || decide ((d_gmtime t).year < 0)) = false := by
    rw [abs_of_nonneg (by omega)]
    simp only [Bool.or_eq_false_iff, decide_eq_false_iff_not, not_lt]
    exact ⟨by omega, by omega⟩
  simp only [d_timetoISOstr, hue, Bool.false_eq_true, if_false,
    fmtPad_nonneg 4 (d_gmtime t).year (by omega),
    fmtPad_nonneg 2 ((d_gmtime t).month + 1) (by omega),
    fmtPad_nonneg 2 (d_gmtime t).day (by omega),
    fmtPad_nonneg 2 (d_gmtime t).hour (by omega),
    fmtPad_nonneg 2 (d_gmtime t).min (by omega),
    fmtPad_nonneg 2 (d_gmtime t).sec (by omega),
    fmtPad_nonneg 3 (d_gmtime t).msec (by omega),
    List.nil_append]

/-- The strict-ISO `sscanf` strategy recovers the seven broken-down fields
exactly from the formatter's output, for every instant in
`[0, TimeFromYear 10000)`. -/
theorem scanISO_canonical (t : Int) (h0 : 0 ≤ t)
    (hlim : t < 253402300800000) :
    scanISO (d_timetoISOstr t)
      = some ((d_gmtime t).year, (d_gmtime t).month + 1, (d_gmtime t).day,
          (d_gmtime t).hour, (d_gmtime t).min, (d_gmtime t).sec,
          (d_gmtime t).msec) := by
  have hy2 := gmtime_year_le9999 t h0 hlim
  obtain ⟨hy1, ⟨hm1, hm2⟩, ⟨hd1, hd2⟩, ⟨hh1, hh2⟩, ⟨hmi1, hmi2⟩,
    ⟨hs1, hs2⟩, ⟨hms1, hms2⟩, _⟩ := gmtime_master t h0
  have hp100 : (10 : Nat) ^ (1 + 1) = 100 := by norm_num
  have hp1000 : (10 : Nat) ^ (2 + 1) = 1000 := by norm_num
  have hlMO : (zeroPad 2 (natDigits ((d_gmtime t).month + 1).toNat)).length
      = 2 :=
    zeroPad_length_of_le _ _ (natDigits_length_le _ 1 (by rw [hp100]; omega))
  have hlD : (zeroPad 2 (natDigits (d_gmtime t).day.toNat)).length = 2 :=
    zeroPad_length_of_le _ _ (natDigits_length_le _ 1 (by rw [hp100]; omega))
  have hlH : (zeroPad 2 (natDigits (d_gmtime t).hour.toNat)).length = 2 :=
    zeroPad_length_of_le _ _ (natDigits_length_le _ 1 (by rw [hp100]; omega))
  have hlMI : (zeroPad 2 (natDigits (d_gmtime t).min.toNat)).length = 2 :=
    zeroPad_length_of_le _ _ (natDigits_length_le _ 1 (by rw [hp100]; omega))
  have hlS : (zeroPad 2 (natDigits (d_gmtime t).sec.toNat)).length = 2 :=
    zeroPad_length_of_le _ _ (natDigits_length_le _ 1 (by rw [hp100]; omega))
  have hlMS : (zeroPad 3 (natDigits (d_gmtime t).msec.toNat)).length = 3 :=
    zeroPad_length_of_le _ _ (natDigits_length_le _ 2 (by rw [hp1000]; omega))
  have hnn : ∀ n : Nat, zeroPad 2 (natDigits n) ≠ [] := fun n he => by
    have := zeroPad_natDigits_length_pos 2 n
    rw [he] at this
    simp at this
  have hnn3 : ∀ n : Nat, zeroPad 3 (natDigits n) ≠ [] := fun n he => by
    have := zeroPad_natDigits_length_pos 3 n
    rw [he] at this
    simp at this
  have hnn4 : ∀ n : Nat, zeroPad 4 (natDigits n) ≠ [] := fun n he => by
    have := zeroPad_natDigits_length_pos 4 n
    rw [he] at this
    simp at this
  have hdash : ∀ c : Char, ('-' :: ([] : List Char)).head? = some c →
      isDigitCh c = false := by
    intro c hc
    simp only [List.head?_cons, Option.some.injEq] at hc
    rw [← hc]
    decide
  have h1 := scanInt_digits none (zeroPad 4 (natDigits (d_gmtime t).year.toNat))
    ('-' :: (zeroPad 2 (natDigits ((d_gmtime t).month + 1).toNat) ++
      ('-' :: (zeroPad 2 (natDigits (d_gmtime t).day.toNat) ++
      ('T' :: (zeroPad 2 (natDigits (d_gmtime t).hour.toNat) ++
      (':' :: (zeroPad 2 (natDigits (d_gmtime t).min.toNat) ++
      (':' :: (zeroPad 2 (natDigits (d_gmtime t).sec.toNat) ++
      ('.' :: (zeroPad 3 (natDigits (d_gmtime t).msec.toNat) ++
        ['Z']))))))))))))
    (hnn4 _) (zeroPad_digits _ _)
    (Or.inr ⟨rfl, by
      intro c hc
      simp only [List.head?_cons, Option.some.injEq] at hc
      rw [← hc]
      decide⟩)
  rw [foldl_zeroPad, Int.toNat_of_nonneg (by omega)] at h1
  have h2 := scanInt_digits (some 2)
    (zeroPad 2 (natDigits ((d_gmtime t).month + 1).toNat))
    ('-' :: (zeroPad 2 (natDigits (d_gmtime t).day.toNat) ++
      ('T' :: (zeroPad 2 (natDigits (d_gmtime t).hour.toNat) ++
      (':' :: (zeroPad 2 (natDigits (d_gmtime t).min.toNat) ++
      (':' :: (zeroPad 2 (natDigits (d_gmtime t).sec.toNat) ++
      ('.' :: (zeroPad 3 (natDigits (d_gmtime t).msec.toNat) ++
        ['Z']))))))))))
    (hnn _) (zeroPad_digits _ _) (Or.inl (by rw [hlMO]))
  rw [foldl_zeroPad, Int.toNat_of_nonneg (by omega)] at h2
  have h3 := scanInt_digits (some 2)
    (zeroPad 2 (natDigits (d_gmtime t).day.toNat))
    ('T' :: (zeroPad 2 (natDigits (d_gmtime t).hour.toNat) ++
      (':' :: (zeroPad 2 (natDigits (d_gmtime t).min.toNat) ++
      (':' :: (zeroPad 2 (natDigits (d_gmtime t).sec.toNat) ++
      ('.' :: (zeroPad 3 (natDigits (d_gmtime t).msec.toNat) ++
        ['Z']))))))))
    (hnn _) (zeroPad_digits _ _) (Or.inl (by rw [hlD]))
  rw [foldl_zeroPad, Int.toNat_of_nonneg (by omega)] at h3
  have h4 := scanInt_digits (some 2)
    (zeroPad 2 (natDigits (d_gmtime t).hour.toNat))
    (':' :: (zeroPad 2 (natDigits (d_gmtime t).min.toNat) ++
      (':' :: (zeroPad 2 (natDigits (d_gmtime t).sec.toNat) ++
      ('.' :: (zeroPad 3 (natDigits (d_gmtime t).msec.toNat) ++
        ['Z']))))))
    (hnn _) (zeroPad_digits _ _) (Or.inl (by rw [hlH]))
  rw [foldl_zeroPad, Int.toNat_of_nonneg (by omega)] at h4
  have h5 := scanInt_digits (some 2)
    (zeroPad 2 (natDigits (d_gmtime t).min.toNat))
    (':' :: (zeroPad 2 (natDigits (d_gmtime t).sec.toNat) ++
      ('.' :: (zeroPad 3 (natDigits (d_gmtime t).msec.toNat) ++ ['Z']))))
    (hnn _) (zeroPad_digits _ _) (Or.inl (by rw [hlMI]))
  rw [foldl_zeroPad, Int.toNat_of_nonneg (by omega)] at h5
  have h6 := scanInt_digits (some 2)
    (zeroPad 2 (natDigits (d_gmtime t).sec.toNat))
    ('.' :: (zeroPad 3 (natDigits (d_gmtime t).msec.toNat) ++ ['Z']))
    (hnn _) (zeroPad_digits _ _) (Or.inl (by rw [hlS]))
  rw [foldl_zeroPad, Int.toNat_of_nonneg (by omega)] at h6
  have h7 := scanInt_digits (some 3)
    (zeroPad 3 (natDigits (d_gmtime t).msec.toNat)) ['Z']
    (hnn3 _) (zeroPad_digits _ _) (Or.inl (by rw [hlMS]))
  rw [foldl_zeroPad, Int.toNat_of_nonneg (by omega)] at h7
  rw [d_timetoISOstr_canonical t h0 hlim]
  simp only [scanISO, h1, h2, h3, h4, h5, h6, h7, lit_cons]
/-- C4 (counterexample): the valid instant `t = -1` (one millisecond before
the epoch) formats — through the negative `tmod`-based time-of-day fields —
as `1969-12-31T-1:-1:-1.-01Z`, which the parser rejects (the `%02d` fields
scan as negative numbers and fail range validation), so
`parse(format(-1))` is `NAN`, not `-1`. -/
theorem iso_roundtrip_fails_negative :
    d_timetoISOstr (-1) = ('1' :: '9' :: '6' :: '9' :: '-' :: '1' :: '2' ::
      '-' :: '3' :: '1' :: 'T' :: '-' :: '1' :: ':' :: '-' :: '1' :: ':' ::
      '-' :: '1' :: '.' :: '-' :: '0' :: '1' :: ['Z']) ∧
    d_timeFromString noFallback 0 (d_timetoISOstr (-1)) = none ∧
    d_timeFromString noFallback 0 (d_timetoISOstr (-1)) ≠ some (-1) :=
  ⟨by decide, by decide, by decide⟩


/-- `scanInt` with no width on a `'+'`, a nonempty digit run and a non-digit
stopper: the sign is consumed (`%d` accepts it) and the run's decimal value is
returned. -/
theorem scanInt_plus_digits (ds r : List Char) (hne : ds ≠ [])
    (hdig : ∀ c ∈ ds, isDigitCh c = true)
    (hr : ∀ c, r.head? = some c → isDigitCh c = false) :
    scanInt none ('+' :: (ds ++ r))
      = some (((List.foldl (fun a c => a * 10 + (c.toNat - 48)) 0 ds : Nat) :
          Int), r) := by
  match ds, hne with
  | c :: ds, _ =>
    have hsp : skipSpaces ('+' :: c :: (ds ++ r)) = '+' :: c :: (ds ++ r) := by
      simp [skipSpaces, isSpaceCh]
    have hrd := readDigitsW_exact (c :: ds) ((c :: ds) ++ r).length 0 r hdig
      (by simp) (Or.inr hr)
    simp only [List.cons_append, List.length_cons, List.length_append] at hrd
    simp only [scanInt, List.cons_append, hsp,
      if_neg (show ¬ ('+' : Char) = '-' from by decide),
      if_pos (show ('+' : Char) = '+' from rfl), Option.map_none',
      if_true, List.length_cons, List.length_append]
    rw [hrd]
    simp

/-- On `[TimeFromYear 10000, 8.64e15]` the ISO formatter produces the
extended layout: a single `'+'`, the year zero-padded to six digits, then the
usual `-MM-DDTHH:MM:SS.mmmZ` tail. -/
theorem d_timetoISOstr_canonical_ext (t : Int) (h0 : 0 ≤ t)
    (hge : 253402300800000 ≤ t) (hle : t ≤ 8640000000000000) :
    d_timetoISOstr t
      = '+' :: (zeroPad 6 (natDigits (d_gmtime t).year.toNat) ++
        ('-' :: (zeroPad 2 (natDigits ((d_gmtime t).month + 1).toNat) ++
        ('-' :: (zeroPad 2 (natDigits (d_gmtime t).day.toNat) ++
        ('T' :: (zeroPad 2 (natDigits (d_gmtime t).hour.toNat) ++
        (':' :: (zeroPad 2 (natDigits (d_gmtime t).min.toNat) ++
        (':' :: (zeroPad 2 (natDigits (d_gmtime t).sec.toNat) ++
        ('.' :: (zeroPad 3 (natDigits (d_gmtime t).msec.toNat) ++
          ['Z']))))))))))))) := by
  have hy10k := gmtime_year_ge10000 t h0 hge
  obtain ⟨hy1, ⟨hm1, hm2⟩, ⟨hd1, hd2⟩, ⟨hh1, hh2⟩, ⟨hmi1, hmi2⟩,
    ⟨hs1, hs2⟩, ⟨hms1, hms2⟩, _⟩ := gmtime_master t h0
  have hue : (decide (9999 < |(d_gmtime t).year|)
      || decide ((d_gmtime t).year < 0)) = true := by
    rw [abs_of_nonneg (by omega)]
    simp only [Bool.or_eq_true, decide_eq_true_eq]
    exact Or.inl (by omega)
  have hpos : (0 : Int) < (d_gmtime t).year := by omega
  simp [d_timetoISOstr, hue, hpos,
    fmtPad_nonneg 6 (d_gmtime t).year (by omega),
    fmtPad_nonneg 2 ((d_gmtime t).month + 1) (by omega),
    fmtPad_nonneg 2 (d_gmtime t).day (by omega),
    fmtPad_nonneg 2 (d_gmtime t).hour (by omega),
    fmtPad_nonneg 2 (d_gmtime t).min (by omega),
    fmtPad_nonneg 2 (d_gmtime t).sec (by omega),
    fmtPad_nonneg 3 (d_gmtime t).msec (by omega)]

/-- The strict-ISO `sscanf` strategy also recovers the seven fields from the
extended (`'+'`-signed six-digit-year) format, for every instant in
`[TimeFromYear 10000, 8.64e15]`: `%d` reads the sign. -/
theorem scanISO_canonical_ext (t : Int) (h0 : 0 ≤ t)
    (hge : 253402300800000 ≤ t) (hle : t ≤ 8640000000000000) :
    scanISO (d_timetoISOstr t)
      = some ((d_gmtime t).year, (d_gmtime t).month + 1, (d_gmtime t).day,
          (d_gmtime t).hour, (d_gmtime t).min, (d_gmtime t).sec,
          (d_gmtime t).msec) := by
  obtain ⟨hy1, ⟨hm1, hm2⟩, ⟨hd1, hd2⟩, ⟨hh1, hh2⟩, ⟨hmi1, hmi2⟩,
    ⟨hs1, hs2⟩, ⟨hms1, hms2⟩, _⟩ := gmtime_master t h0
  have hp100 : (10 : Nat) ^ (1 + 1) = 100 := by norm_num
  have hp1000 : (10 : Nat) ^ (2 + 1) = 1000 := by norm_num
  have hlMO : (zeroPad 2 (natDigits ((d_gmtime t).month + 1).toNat)).length
      = 2 :=
    zeroPad_length_of_le _ _ (natDigits_length_le _ 1 (by rw [hp100]; omega))
  have hlD : (zeroPad 2 (natDigits (d_gmtime t).day.toNat)).length = 2 :=
    zeroPad_length_of_le _ _ (natDigits_length_le _ 1 (by rw [hp100]; omega))
  have hlH : (zeroPad 2 (natDigits (d_gmtime t).hour.toNat)).length = 2 :=
    zeroPad_length_of_le _ _ (natDigits_length_le _ 1 (by rw [hp100]; omega))
  have hlMI : (zeroPad 2 (natDigits (d_gmtime t).min.toNat)).length = 2 :=
    zeroPad_length_of_le _ _ (natDigits_length_le _ 1 (by rw [hp100]; omega))
  have hlS : (zeroPad 2 (natDigits (d_gmtime t).sec.toNat)).length = 2 :=
    zeroPad_length_of_le _ _ (natDigits_length_le _ 1 (by rw [hp100]; omega))
  have hlMS : (zeroPad 3 (natDigits (d_gmtime t).msec.toNat)).length = 3 :=
    zeroPad_length_of_le _ _ (natDigits_length_le _ 2 (by rw [hp1000]; omega))
  have hnn : ∀ n : Nat, zeroPad 2 (natDigits n) ≠ [] := fun n he => by
    have := zeroPad_natDigits_length_pos 2 n
    rw [he] at this
    simp at this
  have hnn3 : ∀ n : Nat, zeroPad 3 (natDigits n) ≠ [] := fun n he => by
    have := zeroPad_natDigits_length_pos 3 n
    rw [he] at this
    simp at this
  have hnn6 : ∀ n : Nat, zeroPad 6 (natDigits n) ≠ [] := fun n he => by
    have := zeroPad_natDigits_length_pos 6 n
    rw [he] at this
    simp at this
  have h1 := scanInt_plus_digits
    (zeroPad 6 (natDigits (d_gmtime t).year.toNat))
    ('-' :: (zeroPad 2 (natDigits ((d_gmtime t).month + 1).toNat) ++
      ('-' :: (zeroPad 2 (natDigits (d_gmtime t).day.toNat) ++
      ('T' :: (zeroPad 2 (natDigits (d_gmtime t).hour.toNat) ++
      (':' :: (zeroPad 2 (natDigits (d_gmtime t).min.toNat) ++
      (':' :: (zeroPad 2 (natDigits (d_gmtime t).sec.toNat) ++
      ('.' :: (zeroPad 3 (natDigits (d_gmtime t).msec.toNat) ++
        ['Z']))))))))))))
    (hnn6 _) (zeroPad_digits _ _)
    (by
      intro c hc
      simp only [List.head?_cons, Option.some.injEq] at hc
      rw [← hc]
      decide)
  rw [foldl_zeroPad, Int.toNat_of_nonneg (by omega)] at h1
  have h2 := scanInt_digits (some 2)
    (zeroPad 2 (natDigits ((d_gmtime t).month + 1).toNat))
    ('-' :: (zeroPad 2 (natDigits (d_gmtime t).day.toNat) ++
      ('T' :: (zeroPad 2 (natDigits (d_gmtime t).hour.toNat) ++
      (':' :: (zeroPad 2 (natDigits (d_gmtime t).min.toNat) ++
      (':' :: (zeroPad 2 (natDigits (d_gmtime t).sec.toNat) ++
      ('.' :: (zeroPad 3 (natDigits (d_gmtime t).msec.toNat) ++
        ['Z']))))))))))
    (hnn _) (zeroPad_digits _ _) (Or.inl (by rw [hlMO]))
  rw [foldl_zeroPad, Int.toNat_of_nonneg (by omega)] at h2
  have h3 := scanInt_digits (some 2)
    (zeroPad 2 (natDigits (d_gmtime t).day.toNat))
    ('T' :: (zeroPad 2 (natDigits (d_gmtime t).hour.toNat) ++
      (':' :: (zeroPad 2 (natDigits (d_gmtime t).min.toNat) ++
      (':' :: (zeroPad 2 (natDigits (d_gmtime t).sec.toNat) ++
      ('.' :: (zeroPad 3 (natDigits (d_gmtime t).msec.toNat) ++
        ['Z']))))))))
    (hnn _) (zeroPad_digits _ _) (Or.inl (by rw [hlD]))
  rw [foldl_zeroPad, Int.toNat_of_nonneg (by omega)] at h3
  have h4 := scanInt_digits (some 2)
    (zeroPad 2 (natDigits (d_gmtime t).hour.toNat))
    (':' :: (zeroPad 2 (natDigits (d_gmtime t).min.toNat) ++
      (':' :: (zeroPad 2 (natDigits (d_gmtime t).sec.toNat) ++
      ('.' :: (zeroPad 3 (natDigits (d_gmtime t).msec.toNat) ++
        ['Z']))))))
    (hnn _) (zeroPad_digits _ _) (Or.inl (by rw [hlH]))
  rw [foldl_zeroPad, Int.toNat_of_nonneg (by omega)] at h4
  have h5 := scanInt_digits (some 2)
    (zeroPad 2 (natDigits (d_gmtime t).min.toNat))
    (':' :: (zeroPad 2 (natDigits (d_gmtime t).sec.toNat) ++
      ('.' :: (zeroPad 3 (natDigits (d_gmtime t).msec.toNat) ++ ['Z']))))
    (hnn _) (zeroPad_digits _ _) (Or.inl (by rw [hlMI]))
  rw [foldl_zeroPad, Int.toNat_of_nonneg (by omega)] at h5
  have h6 := scanInt_digits (some 2)
    (zeroPad 2 (natDigits (d_gmtime t).sec.toNat))
    ('.' :: (zeroPad 3 (natDigits (d_gmtime t).msec.toNat) ++ ['Z']))
    (hnn _) (zeroPad_digits _ _) (Or.inl (by rw [hlS]))
  rw [foldl_zeroPad, Int.toNat_of_nonneg (by omega)] at h6
  have h7 := scanInt_digits (some 3)
    (zeroPad 3 (natDigits (d_gmtime t).msec.toNat)) ['Z']
    (hnn3 _) (zeroPad_digits _ _) (Or.inl (by rw [hlMS]))
  rw [foldl_zeroPad, Int.toNat_of_nonneg (by omega)] at h7
  rw [d_timetoISOstr_canonical_ext t h0 hge hle]
  simp only [scanISO, h1, h2, h3, h4, h5, h6, h7, lit_cons]

/-- The formatted string never exceeds the 100-byte parser limit on
`[0, 8.64e15]`: 24 characters in the four-digit-year range, 27 in the
extended range. -/
theorem d_timetoISOstr_short (t : Int) (h0 : 0 ≤ t)
    (hle : t ≤ 8640000000000000) :
    ¬ 100 < (d_timetoISOstr t).length := by
  obtain ⟨hy1, ⟨hm1, hm2⟩, ⟨hd1, hd2⟩, ⟨hh1, hh2⟩, ⟨hmi1, hmi2⟩,
    ⟨hs1, hs2⟩, ⟨hms1, hms2⟩, _⟩ := gmtime_master t h0
  have hymax := gmtime_year_le_max t h0 hle
  have hp100 : (10 : Nat) ^ (1 + 1) = 100 := by norm_num
  have hp1000 : (10 : Nat) ^ (2 + 1) = 1000 := by norm_num
  have hp10000 : (10 : Nat) ^ (3 + 1) = 10000 := by norm_num
  have hpmil : (10 : Nat) ^ (5 + 1) = 1000000 := by norm_num
  have hlMO : (zeroPad 2 (natDigits ((d_gmtime t).month + 1).toNat)).length
      = 2 :=
    zeroPad_length_of_le _ _ (natDigits_length_le _ 1 (by rw [hp100]; omega))
  have hlD : (zeroPad 2 (natDigits (d_gmtime t).day.toNat)).length = 2 :=
    zeroPad_length_of_le _ _ (natDigits_length_le _ 1 (by rw [hp100]; omega))
  have hlH : (zeroPad 2 (natDigits (d_gmtime t).hour.toNat)).length = 2 :=
    zeroPad_length_of_le _ _ (natDigits_length_le _ 1 (by rw [hp100]; omega))
  have hlMI : (zeroPad 2 (natDigits (d_gmtime t).min.toNat)).length = 2 :=
    zeroPad_length_of_le _ _ (natDigits_length_le _ 1 (by rw [hp100]; omega))
  have hlS : (zeroPad 2 (natDigits (d_gmtime t).sec.toNat)).length = 2 :=
    zeroPad_length_of_le _ _ (natDigits_length_le _ 1 (by rw [hp100]; omega))
  have hlMS : (zeroPad 3 (natDigits (d_gmtime t).msec.toNat)).length = 3 :=
    zeroPad_length_of_le _ _ (natDigits_length_le _ 2 (by rw [hp1000]; omega))
  rcases lt_or_le t 253402300800000 with hsm | hge
  · have hy2 := gmtime_year_le9999 t h0 hsm
    have hlY : (zeroPad 4 (natDigits (d_gmtime t).year.toNat)).length = 4 :=
      zeroPad_length_of_le _ _
        (natDigits_length_le _ 3 (by rw [hp10000]; omega))
    rw [d_timetoISOstr_canonical t h0 hsm]
    simp only [List.length_append, List.length_cons, List.length_singleton,
      List.length_nil, hlY, hlMO, hlD, hlH, hlMI, hlS, hlMS]
    omega
  · have hlY : (zeroPad 6 (natDigits (d_gmtime t).year.toNat)).length = 6 :=
      zeroPad_length_of_le _ _
        (natDigits_length_le _ 5 (by rw [hpmil]; omega))
    rw [d_timetoISOstr_canonical_ext t h0 hge hle]
    simp only [List.length_append, List.length_cons, List.length_singleton,
      List.length_nil, hlY, hlMO, hlD, hlH, hlMI, hlS, hlMS]
    omega

/-- Everything after the strict-ISO scan succeeds: month decrement, range
validation, zero timezone, and the `gmktime` rebuild give back exactly `t`. -/
theorem iso_roundtrip_core
    (fallback : List Char → Option (TimeParts × Int)) (hostTZmin : Int)
    (t : Int) (h0 : 0 ≤ t)
    (hscan : scanISO (d_timetoISOstr t)
      = some ((d_gmtime t).year, (d_gmtime t).month + 1, (d_gmtime t).day,
          (d_gmtime t).hour, (d_gmtime t).min, (d_gmtime t).sec,
          (d_gmtime t).msec))
    (hlen : ¬ 100 < (d_timetoISOstr t).length) :
    d_timeFromString fallback hostTZmin (d_timetoISOstr t) = some t := by
  obtain ⟨hy1, ⟨hm1, hm2⟩, ⟨hd1, hd2⟩, ⟨hh1, hh2⟩, ⟨hmi1, hmi2⟩,
    ⟨hs1, hs2⟩, ⟨hms1, hms2⟩, hrebuild⟩ := gmtime_master t h0
  unfold d_timeFromString
  rw [if_neg hlen]
  unfold d_parsedatestr
  rw [hscan]
  have htz : (if (0 : Int) ≠ NO_TZ ∧ 12 < (0 : Int) then Int.tdiv 0 100
      else (0 : Int)) = 0 := by
    rw [if_neg]
    intro hcon
    exact absurd hcon.2 (by decide)
  simp only [htz]
  rw [if_pos]
  · have happ := hrebuild
      { year := (d_gmtime t).year, month := (d_gmtime t).month + 1 - 1,
        day := (d_gmtime t).day, hour := (d_gmtime t).hour,
        min := (d_gmtime t).min, sec := (d_gmtime t).sec,
        msec := (d_gmtime t).msec, dayofweek := 0 }
      rfl (by simp) rfl rfl rfl rfl rfl
    simp only [happ]
    rw [if_neg (show ¬ (0 : Int) = NO_TZ from by decide)]
    simp only [zero_mul, sub_zero]
  · refine ⟨⟨?_, ?_⟩, ⟨?_, ?_⟩, ⟨?_, ?_⟩, ⟨?_, ?_⟩, ⟨?_, ?_⟩, Or.inl ?_⟩
    · exact hd1
    · exact hd2
    · omega
    · omega
    · exact hh1
    · exact hh2
    · exact hmi1
    · exact hmi2
    · exact hs1
    · exact hs2
    · decide

/-- C4 (amended): for every valid NON-NEGATIVE instant — `0 ≤ t ≤ 8.64e15`,
i.e. the epoch through the end of the ECMA time range, **including** every
year at or above 10000 (where the formatter writes `'+'` and six year digits,
which the `%d` scan reads back) — parsing the ISO formatter's output returns
exactly `t` again, on every host (every `d_parsedatestr` fallback and every
host timezone).  For `t < 0` the round trip fails (see the counterexample):
the negative broken-down time-of-day fields make the parser's range
validation reject the string, so only the negative side of the original claim
is wrong. -/
theorem d_timeFromString_iso_roundtrip
    (fallback : List Char → Option (TimeParts × Int)) (hostTZmin : Int)
    (t : Int) (h0 : 0 ≤ t) (hlim : t ≤ 8640000000000000) :
    d_timeFromString fallback hostTZmin (d_timetoISOstr t) = some t := by
  rcases lt_or_le t 253402300800000 with hsm | hge
  · exact iso_roundtrip_core fallback hostTZmin t h0
      (scanISO_canonical t h0 hsm) (d_timetoISOstr_short t h0 hlim)
  · exact iso_roundtrip_core fallback hostTZmin t h0
      (scanISO_canonical_ext t h0 hge hlim) (d_timetoISOstr_short t h0 hlim)

theorem d_timeFromString_iso_roundtrip_witness :
    ((0 : Int) ≤ 0 ∧ (0 : Int) ≤ 8640000000000000) ∧
    d_timeFromString noFallback 0 (d_timetoISOstr 0) = some 0 ∧
    ((0 : Int) ≤ 253402300800000 ∧
      (253402300800000 : Int) ≤ 8640000000000000) ∧
    d_timeFromString noFallback 0 (d_timetoISOstr 253402300800000)
      = some 253402300800000 :=
  ⟨⟨by decide, by decide⟩,
   d_timeFromString_iso_roundtrip noFallback 0 0 (by decide) (by decide),
   ⟨by decide, by decide⟩,
   d_timeFromString_iso_roundtrip noFallback 0 253402300800000 (by decide)
     (by decide)⟩
